import Mathlib

/-!
Verification of the secp256k1 primitive layer wrapped by
`Sources/CSecp256k1/CSecp256k1.c`.  The wrapper delegates every operation to
the upstream secp256k1 engine, whose sources are not part of this repository,
so the cryptographic core (field and curve arithmetic, deterministic ECDSA
signing, verification, recovery, key transforms) is modelled from the
specification and the helper functions of `CSecp256k1.c` are embedded on top
of that model.
-/

namespace FuekiSecp

/-- The secp256k1 base field prime `p = 2^256 - 2^32 - 977`. -/
def secp_p : Nat :=
  115792089237316195423570985008687907853269984665640564039457584007908834671663

/-- The secp256k1 group order `n`. -/
def secp_n : Nat :=
  115792089237316195423570985008687907852837564279074904382605163141518161494337

/-- x-coordinate of the generator point `G`. -/
def secp_gx : Nat :=
  55066263022277343669578718895168534326250603453777594175500187360389116729240

/-- y-coordinate of the generator point `G`. -/
def secp_gy : Nat :=
  32670510020758816978083085130507043184471273380659243275938904335757337482424

/-- Fuel-driven modular exponentiation by repeated squaring; the fuel bounds
the number of halvings of the exponent.  Defined by bare recursion on the
fuel so that kernel reduction stays linear. -/
def powModAux : Nat → Nat → Nat → Nat → Nat :=
  Nat.rec (motive := fun _ => Nat → Nat → Nat → Nat)
    (fun _ _ m => 1 % m)
    (fun _ ih b e m =>
      if e = 0 then 1 % m
      else
        let r := ih (b * b % m) (e / 2) m
        if e % 2 = 1 then b * r % m else r)

theorem powModAux_zero (b e m : Nat) : powModAux 0 b e m = 1 % m := rfl

theorem powModAux_succ (fuel b e m : Nat) : powModAux (fuel + 1) b e m =
    if e = 0 then 1 % m
    else if e % 2 = 1 then b * powModAux fuel (b * b % m) (e / 2) m % m
    else powModAux fuel (b * b % m) (e / 2) m := rfl

/-- Modular exponentiation `b ^ e % m`; `e + 1` units of fuel always
suffice because `e < 2 ^ (e + 1)`. -/
def powMod (b e m : Nat) : Nat :=
  powModAux (e + 1) (b % m) e m

/-- Modelled from the spec: the field/scalar inversion used by the wrapped
engine (`Field & Curve Arithmetic` component); computed by Fermat's little
theorem as `a ^ (m - 2) mod m` for the prime moduli `secp_p` and `secp_n`. -/
def invMod (a m : Nat) : Nat :=
  powMod a (m - 2) m

/-- An affine secp256k1 point: the point at infinity or affine coordinates,
kept reduced modulo `secp_p`. -/
inductive Pt
  | inf
  | aff (x y : Nat)
  deriving DecidableEq

/-- Field addition modulo `secp_p`. -/
def addP (a b : Nat) : Nat := (a + b) % secp_p

/-- Field subtraction modulo `secp_p` (inputs reduced). -/
def subP (a b : Nat) : Nat := (a + (secp_p - b)) % secp_p

/-- Field multiplication modulo `secp_p`. -/
def mulP (a b : Nat) : Nat := a * b % secp_p

/-- The tangent/secant slope used by affine point addition. -/
def paddSlope (x1 y1 x2 y2 : Nat) : Nat :=
  if x1 = x2 then mulP (mulP 3 (mulP x1 x1)) (invMod (mulP 2 y1) secp_p)
  else mulP (subP y1 y2) (invMod (subP x1 x2) secp_p)

/-- Modelled from the spec: the curve group operation of the wrapped engine
(`Field & Curve Arithmetic` component): affine-coordinate point addition on
`y^2 = x^3 + 7` with the usual secant/tangent slopes. -/
def padd : Pt → Pt → Pt
  | Pt.inf, q => q
  | p, Pt.inf => p
  | Pt.aff x1 y1, Pt.aff x2 y2 =>
    if x1 = x2 ∧ y1 = (secp_p - y2) % secp_p then Pt.inf
    else
      let l := paddSlope x1 y1 x2 y2
      let x3 := subP (subP (mulP l l) x1) x2
      Pt.aff x3 (subP (mulP l (subP x1 x3)) y1)

/-- Point negation on the curve. -/
def pneg : Pt → Pt
  | Pt.inf => Pt.inf
  | Pt.aff x y => Pt.aff x ((secp_p - y) % secp_p)

/-- Fuel-driven double-and-add loop for scalar multiplication, by bare
recursion on the fuel. -/
def smulAux : Nat → Nat → Pt → Pt → Pt :=
  Nat.rec (motive := fun _ => Nat → Pt → Pt → Pt)
    (fun _ _ acc => acc)
    (fun _ ih k base acc =>
      if k = 0 then acc
      else ih (k / 2) (padd base base) (if k % 2 = 1 then padd acc base else acc))

theorem smulAux_zero (k : Nat) (base acc : Pt) : smulAux 0 k base acc = acc := rfl

theorem smulAux_succ (fuel k : Nat) (base acc : Pt) : smulAux (fuel + 1) k base acc =
    if k = 0 then acc
    else smulAux fuel (k / 2) (padd base base)
      (if k % 2 = 1 then padd acc base else acc) := rfl

/-- Modelled from the spec: scalar multiplication `k · P` of the wrapped
engine, by binary double-and-add; `k + 1` units of fuel always suffice. -/
def smul (k : Nat) (p : Pt) : Pt :=
  smulAux (k + 1) k p Pt.inf

/-- The generator point `G` as a concrete `Pt`. -/
def Gpt : Pt := Pt.aff secp_gx secp_gy

/-- Decidable on-curve test: coordinates reduced and satisfying
`y^2 = x^3 + 7` modulo `secp_p` (the point at infinity passes). -/
def onCurve : Pt → Bool
  | Pt.inf => true
  | Pt.aff x y =>
    decide (x < secp_p) && decide (y < secp_p) &&
      decide (y * y % secp_p = (x * x % secp_p * x + 7) % secp_p)

/-- Big-endian serialization of a natural number into `len` bytes. -/
def natToBytesBE : Nat → Nat → List Nat
  | 0, _ => []
  | len + 1, v => natToBytesBE len (v / 256) ++ [v % 256]

/-- Big-endian interpretation of a byte list as a natural number. -/
def bytesToNatBE (b : List Nat) : Nat :=
  b.foldl (fun acc d => acc * 256 + d) 0

/-- Every entry of the list is a byte value. -/
def isBytes (b : List Nat) : Bool :=
  b.all (fun d => d < 256)

/-- A secp256k1 context: per the spec (§3, §4.1) an opaque handle whose
observable attributes are the SIGN and VERIFY capability flags. -/
structure Ctx where
  canSign : Bool
  canVerify : Bool
  deriving DecidableEq

/-- Modelled from the spec: `secp256k1_context_create` of the wrapped engine;
fails when no capability is requested (§4.1). -/
def secp256k1_context_create (sign_flag verify_flag : Bool) : Option Ctx :=
  if sign_flag || verify_flag then some ⟨sign_flag, verify_flag⟩ else none

/-- The context constructor exposed by `CSecp256k1.c`: requests both the SIGN
and the VERIFY capability. -/
def secp256k1_context_create_sign_verify : Option Ctx :=
  secp256k1_context_create true true

/-- Validity of a 32-byte private key: in-range scalar `[1, n-1]` (§3). -/
def isValidSeckey (b : List Nat) : Bool :=
  b.length == 32 && isBytes b &&
    decide (1 ≤ bytesToNatBE b) && decide (bytesToNatBE b < secp_n)

/-- Modelled from the spec: `secp256k1_ec_seckey_verify` as wrapped by
`secp256k1_ec_seckey_verify_helper`; a pure range/non-zero check. -/
def secp256k1_ec_seckey_verify_helper (_ctx : Ctx) (seckey : List Nat) : Bool :=
  isValidSeckey seckey

/-- SEC1 serialization of an affine point: 33 bytes (parity tag 2 or 3 then
x) when compressed, 65 bytes (tag 4 then x then y) otherwise. -/
def serializePoint (p : Pt) (compressed : Bool) : Option (List Nat) :=
  match p with
  | Pt.inf => none
  | Pt.aff x y =>
    if compressed then some ((if y % 2 = 1 then 3 else 2) :: natToBytesBE 32 x)
    else some (4 :: (natToBytesBE 32 x ++ natToBytesBE 32 y))

/-- Square root modulo `secp_p` via the exponent `(p + 1) / 4`, valid because
`secp_p ≡ 3 (mod 4)`. -/
def sqrtP (a : Nat) : Nat :=
  powMod a ((secp_p + 1) / 4) secp_p

/-- Modelled from the spec: `secp256k1_ec_pubkey_parse` (§4.2): accepts the
compressed (33-byte, tag 2/3) and uncompressed (65-byte, tag 4) encodings,
rejecting out-of-range coordinates and points off the curve. -/
def parsePubkeyBytes (b : List Nat) : Option Pt :=
  if b.length = 33 ∧ (b.head? = some 2 ∨ b.head? = some 3) ∧ isBytes b = true then
    let x := bytesToNatBE (b.drop 1)
    if x < secp_p then
      let c := (x * x % secp_p * x + 7) % secp_p
      let y0 := sqrtP c
      if y0 * y0 % secp_p = c then
        let want := if b.head? = some 3 then 1 else 0
        some (Pt.aff x (if y0 % 2 = want then y0 else (secp_p - y0) % secp_p))
      else none
    else none
  else if b.length = 65 ∧ b.head? = some 4 ∧ isBytes b = true then
    let q := Pt.aff (bytesToNatBE ((b.drop 1).take 32)) (bytesToNatBE (b.drop 33))
    if onCurve q then some q else none
  else none

/-- The public-key parse helper of `CSecp256k1.c`; the upstream parse needs
no capability, and the parsed output is the internal point form. -/
def secp256k1_pubkey_parse_helper (_ctx : Ctx) (input : List Nat) : Option Pt :=
  parsePubkeyBytes input

/-- Derivation body of `secp256k1_pubkey_create_helper`: validate the key,
compute `k · G` and serialize per the compression flag (§4.2). -/
def pubkeyCreateBody (private_key : List Nat) (compressed : Bool) : Option (List Nat) :=
  if isValidSeckey private_key = true then
    serializePoint (smul (bytesToNatBE private_key) Gpt) compressed
  else none

/-- The public-key creation helper of `CSecp256k1.c`; the upstream
`secp256k1_ec_pubkey_create` requires the SIGN capability. -/
def secp256k1_pubkey_create_helper (ctx : Ctx) (private_key : List Nat)
    (compressed : Bool) : Option (List Nat) :=
  if ctx.canSign then pubkeyCreateBody private_key compressed else none

/-- Modelled from the spec: the RFC 6979 deterministic nonce of the wrapped
engine (§4.3).  The HMAC-DRBG internals are not part of this repository; what
the spec fixes — and what is modelled — is that the nonce is a deterministic
function of exactly `(privateKey, digest32)` plus the internal retry counter,
and lies in `[1, n-1]`. -/
def rfc6979 (key z attempt : Nat) : Nat :=
  (key + z + attempt) % (secp_n - 1) + 1

/-- One ECDSA signing attempt with nonce `m` (§4.3): `r = (m·G).x mod n`,
`s = m⁻¹(z + r·k) mod n`, retry signals via `none` on `r = 0` or `s = 0`,
low-S normalization, and the recovery id (y-parity bit, x-overflow bit,
parity flipped when `s` is negated). -/
def ecdsaSignAttempt (key z m : Nat) : Option (Nat × Nat × Nat) :=
  match smul m Gpt with
  | Pt.inf => none
  | Pt.aff rx ry =>
    let r := rx % secp_n
    if r = 0 then none
    else
      let s0 := invMod m secp_n * ((z + r * key) % secp_n) % secp_n
      if s0 = 0 then none
      else
        let recid0 := (if ry % 2 = 1 then 1 else 0) + (if secp_n ≤ rx then 2 else 0)
        if secp_n / 2 < s0 then some (r, secp_n - s0, recid0 ^^^ 1)
        else some (r, s0, recid0)

/-- The RFC 6979 retry loop (§4.3): try successive nonces until an attempt
produces valid `r` and `s`. -/
def ecdsaSignLoop : Nat → Nat → Nat → Nat → Option (Nat × Nat × Nat) :=
  Nat.rec (motive := fun _ => Nat → Nat → Nat → Option (Nat × Nat × Nat))
    (fun _ _ _ => none)
    (fun _ ih key z i =>
      match ecdsaSignAttempt key z (rfc6979 key z i) with
      | some rsv => some rsv
      | none => ih key z (i + 1))

theorem ecdsaSignLoop_zero (key z i : Nat) : ecdsaSignLoop 0 key z i = none := rfl

theorem ecdsaSignLoop_succ (fuel key z i : Nat) : ecdsaSignLoop (fuel + 1) key z i =
    match ecdsaSignAttempt key z (rfc6979 key z i) with
    | some rsv => some rsv
    | none => ecdsaSignLoop fuel key z (i + 1) := rfl

/-- Modelled from the spec: deterministic ECDSA signing over the curve (§4.3),
returning `(r, s, recoveryId)`. -/
def ecdsaSign (key z : Nat) : Option (Nat × Nat × Nat) :=
  ecdsaSignLoop 64 key z 0

/-- Compact 64-byte signature serialization `r ‖ s`, each big-endian. -/
def sigSerialize (r s : Nat) : List Nat :=
  natToBytesBE 32 r ++ natToBytesBE 32 s

/-- Signing body of `secp256k1_ecdsa_sign_helper`: validate inputs, run
deterministic ECDSA and serialize to compact form. -/
def signBody (msg32 private_key : List Nat) : Option (List Nat) :=
  if msg32.length = 32 ∧ isBytes msg32 = true ∧ isValidSeckey private_key = true then
    match ecdsaSign (bytesToNatBE private_key) (bytesToNatBE msg32) with
    | some (r, s, _) => some (sigSerialize r s)
    | none => none
  else none

/-- The signing helper of `CSecp256k1.c`; requires the SIGN capability. -/
def secp256k1_ecdsa_sign_helper (ctx : Ctx) (msg32 private_key : List Nat) :
    Option (List Nat) :=
  if ctx.canSign then signBody msg32 private_key else none

/-- Recoverable-signing body: identical arithmetic to `signBody`, returning
the recovery id out-of-band (§4.3, §3). -/
def signRecoverableBody (msg32 private_key : List Nat) : Option (List Nat × Nat) :=
  if msg32.length = 32 ∧ isBytes msg32 = true ∧ isValidSeckey private_key = true then
    match ecdsaSign (bytesToNatBE private_key) (bytesToNatBE msg32) with
    | some (r, s, v) => some (sigSerialize r s, v)
    | none => none
  else none

/-- The recoverable-signing helper of `CSecp256k1.c`; requires SIGN. -/
def secp256k1_ecdsa_sign_recoverable_helper (ctx : Ctx) (msg32 private_key : List Nat) :
    Option (List Nat × Nat) :=
  if ctx.canSign then signRecoverableBody msg32 private_key else none

/-- Modelled from the spec: the core ECDSA verification equation (§4.4):
`u1 = z·s⁻¹ mod n`, `u2 = r·s⁻¹ mod n`, accept iff `(u1·G + u2·Q).x mod n = r`. -/
def ecdsaVerify (r s z : Nat) (q : Pt) : Bool :=
  match padd (smul (z * invMod s secp_n % secp_n) Gpt)
      (smul (r * invMod s secp_n % secp_n) q) with
  | Pt.inf => false
  | Pt.aff x _ => x % secp_n == r

/-- Verification body of `secp256k1_ecdsa_verify_helper`: parse the compact
signature (rejecting `r` or `s` zero or `≥ n`, §4.4), parse the public key,
and check the verification equation.  No low-S requirement is imposed. -/
def verifyBody (sig64 msg32 pubkey_data : List Nat) : Bool :=
  if sig64.length = 64 ∧ isBytes sig64 = true ∧ msg32.length = 32 ∧ isBytes msg32 = true then
    let r := bytesToNatBE (sig64.take 32)
    let s := bytesToNatBE (sig64.drop 32)
    if 1 ≤ r ∧ r < secp_n ∧ 1 ≤ s ∧ s < secp_n then
      match parsePubkeyBytes pubkey_data with
      | some q => ecdsaVerify r s (bytesToNatBE msg32) q
      | none => false
    else false
  else false

/-- The verification helper of `CSecp256k1.c`; requires VERIFY. -/
def secp256k1_ecdsa_verify_helper (ctx : Ctx) (sig64 msg32 pubkey_data : List Nat) : Bool :=
  ctx.canVerify && verifyBody sig64 msg32 pubkey_data

/-- The candidate x-coordinate implied by `r` and the overflow bit (bit 1)
of the recovery id (§4.5). -/
def recoverX (sig64 : List Nat) (recid : Nat) : Nat :=
  bytesToNatBE (sig64.take 32) + (if 2 ≤ recid then secp_n else 0)

/-- The curve equation right-hand side at an x-coordinate. -/
def curveRhs (x : Nat) : Nat :=
  (x * x % secp_p * x + 7) % secp_p

/-- The candidate y-coordinate: the square root of `x^3 + 7` with parity
selected by bit 0 of the recovery id (§4.5). -/
def recoverY (x recid : Nat) : Nat :=
  if sqrtP (curveRhs x) % 2 = recid % 2 then sqrtP (curveRhs x)
  else (secp_p - sqrtP (curveRhs x)) % secp_p

/-- The algebraic recovery `Q = r⁻¹ (s·R - z·G)` of the public key from a
reconstructed nonce point `R` (§4.5). -/
def recoverPoint (r s x y z : Nat) : Pt :=
  smul (invMod r secp_n) (padd (smul s (Pt.aff x y)) (pneg (smul (z % secp_n) Gpt)))

/-- Recovery body (§4.5): rebuild the nonce point `R` from `r`, the overflow
bit (recid bit 1) and the y-parity bit (recid bit 0), then compute
`Q = r⁻¹ (s·R - z·G)` and serialize it per the compression flag. -/
def recoverBody (sig64 : List Nat) (recid : Nat) (msg32 : List Nat)
    (compressed : Bool) : Option (List Nat) :=
  if recid < 4 ∧ sig64.length = 64 ∧ isBytes sig64 = true ∧
      msg32.length = 32 ∧ isBytes msg32 = true then
    if 1 ≤ bytesToNatBE (sig64.take 32) ∧ bytesToNatBE (sig64.take 32) < secp_n ∧
        1 ≤ bytesToNatBE (sig64.drop 32) ∧ bytesToNatBE (sig64.drop 32) < secp_n then
      if recoverX sig64 recid < secp_p then
        if sqrtP (curveRhs (recoverX sig64 recid)) *
            sqrtP (curveRhs (recoverX sig64 recid)) % secp_p =
            curveRhs (recoverX sig64 recid) then
          match recoverPoint (bytesToNatBE (sig64.take 32)) (bytesToNatBE (sig64.drop 32))
              (recoverX sig64 recid) (recoverY (recoverX sig64 recid) recid)
              (bytesToNatBE msg32) with
          | Pt.inf => none
          | q => serializePoint q compressed
        else none
      else none
    else none
  else none

/-- The recovery helper of `CSecp256k1.c`; per §4.5 it requires a SIGN (or
equivalently recovery-capable) context. -/
def secp256k1_ecdsa_recover_helper (ctx : Ctx) (sig64 : List Nat) (recid : Nat)
    (msg32 : List Nat) (compressed : Bool) : Option (List Nat) :=
  if ctx.canSign then recoverBody sig64 recid msg32 compressed else none

/-- A 32-byte buffer of byte values (the only constraint the spec puts on an
additive tweak, §3). -/
def isValidTweakBytes (b : List Nat) : Bool :=
  b.length == 32 && isBytes b

/-- Modelled from the spec: `secp256k1_ec_seckey_tweak_add` as wrapped by
`secp256k1_ec_privkey_tweak_add_helper` (§4.6): `(k + t) mod n` in place,
failing — with the buffer left untouched — iff the key is invalid or the
result is zero. -/
def secp256k1_ec_privkey_tweak_add_helper (_ctx : Ctx) (seckey tweak : List Nat) :
    Bool × List Nat :=
  if isValidSeckey seckey && isValidTweakBytes tweak then
    if (bytesToNatBE seckey + bytesToNatBE tweak) % secp_n = 0 then (false, seckey)
    else (true, natToBytesBE 32 ((bytesToNatBE seckey + bytesToNatBE tweak) % secp_n))
  else (false, seckey)

/-- Modelled from the spec: `secp256k1_ec_seckey_tweak_mul` as wrapped by
`secp256k1_ec_privkey_tweak_mul_helper` (§4.6): `(k · t) mod n` in place,
failing iff the key is invalid or the tweak is zero or `≥ n`. -/
def secp256k1_ec_privkey_tweak_mul_helper (_ctx : Ctx) (seckey tweak : List Nat) :
    Bool × List Nat :=
  if isValidSeckey seckey && isValidTweakBytes tweak &&
      decide (1 ≤ bytesToNatBE tweak) && decide (bytesToNatBE tweak < secp_n) then
    (true, natToBytesBE 32 (bytesToNatBE seckey * bytesToNatBE tweak % secp_n))
  else (false, seckey)

/-- Modelled from the spec: `secp256k1_ec_seckey_negate` as wrapped by
`secp256k1_ec_privkey_negate_helper` (§4.6): `(n - k) mod n` in place; always
succeeds on a valid key. -/
def secp256k1_ec_privkey_negate_helper (_ctx : Ctx) (seckey : List Nat) :
    Bool × List Nat :=
  if isValidSeckey seckey then
    (true, natToBytesBE 32 ((secp_n - bytesToNatBE seckey) % secp_n))
  else (false, seckey)

/-- The public-key validation helper of `CSecp256k1.c`: parse succeeding. -/
def secp256k1_ec_pubkey_verify_helper (_ctx : Ctx) (pubkey_data : List Nat) : Bool :=
  (parsePubkeyBytes pubkey_data).isSome

/-- Bounded trial division: no divisor of `p` in `[2, d]`, by bare recursion
on the bound. -/
def noDivIn (p : Nat) : Nat → Bool :=
  Nat.rec (motive := fun _ => Bool)
    true
    (fun d ih => if d = 0 then true else decide (p % (d + 1) ≠ 0) && ih)

theorem noDivIn_zero (p : Nat) : noDivIn p 0 = true := rfl

theorem noDivIn_succ (p d : Nat) : noDivIn p (d + 1) =
    if d = 0 then true else decide (p % (d + 1) ≠ 0) && noDivIn p d := rfl

/-- Primality by full trial division, adequate for small numbers. -/
def isSmallPrime (p : Nat) : Bool :=
  decide (2 ≤ p) && noDivIn p (p - 1)

theorem powModAux_lt (fuel : Nat) : ∀ b e m : Nat, 0 < m → powModAux fuel b e m < m := by
  induction fuel with
  | zero =>
    intro b e m hm
    rw [powModAux_zero]
    exact Nat.mod_lt _ hm
  | succ fuel ih =>
    intro b e m hm
    rw [powModAux_succ]
    split
    · exact Nat.mod_lt _ hm
    · split
      · exact Nat.mod_lt _ hm
      · exact ih _ _ _ hm

theorem powModAux_eq (fuel : Nat) : ∀ b e m : Nat, 0 < m → e < 2 ^ fuel →
    powModAux fuel b e m = b ^ e % m := by
  induction fuel with
  | zero =>
    intro b e m _ he
    have he0 : e = 0 := by rw [pow_zero] at he; omega
    subst he0
    rw [powModAux_zero, pow_zero]
  | succ fuel ih =>
    intro b e m hm he
    rw [powModAux_succ]
    by_cases h0 : e = 0
    · subst h0
      rw [if_pos rfl, pow_zero]
    · rw [if_neg h0]
      have hhalf : e / 2 < 2 ^ fuel := by
        have : 2 ^ (fuel + 1) = 2 * 2 ^ fuel := by ring
        omega
      have hr : powModAux fuel (b * b % m) (e / 2) m = (b * b) ^ (e / 2) % m := by
        rw [ih _ _ _ hm hhalf, Nat.pow_mod, Nat.mod_mod_of_dvd _ dvd_rfl, ← Nat.pow_mod]
      by_cases hodd : e % 2 = 1
      · rw [if_pos hodd, hr]
        have he2 : e = 2 * (e / 2) + 1 := by omega
        calc b * ((b * b) ^ (e / 2) % m) % m
            = b % m * ((b * b) ^ (e / 2) % m % m) % m := by rw [Nat.mul_mod]
          _ = b % m * ((b * b) ^ (e / 2) % m) % m := by
              rw [Nat.mod_mod_of_dvd _ dvd_rfl]
          _ = b * (b * b) ^ (e / 2) % m := by rw [← Nat.mul_mod]
          _ = b ^ e % m := by
              rw [← pow_two, ← pow_mul, ← pow_succ']
              rw [show 2 * (e / 2) + 1 = e from he2.symm]
      · rw [if_neg hodd, hr]
        have he2 : e = 2 * (e / 2) := by omega
        rw [← pow_two, ← pow_mul, ← he2]

theorem powMod_eq (b e m : Nat) (hm : 0 < m) : powMod b e m = b ^ e % m := by
  rw [powMod, powModAux_eq (e + 1) (b % m) e m hm
    (lt_of_lt_of_le (Nat.lt_two_pow e) (Nat.pow_le_pow_right (by omega) (by omega))),
    Nat.pow_mod,
    Nat.mod_mod_of_dvd _ dvd_rfl, ← Nat.pow_mod]

theorem powMod_lt (b e m : Nat) (hm : 0 < m) : powMod b e m < m :=
  powModAux_lt _ _ _ _ hm

theorem noDivIn_sound (p : Nat) : ∀ d, noDivIn p d = true →
    ∀ m, 2 ≤ m → m ≤ d → p % m ≠ 0 := by
  intro d
  induction d with
  | zero => intro _ m h2 hm; omega
  | succ d ih =>
    intro h m h2 hle
    rw [noDivIn_succ] at h
    by_cases hd0 : d = 0
    · subst hd0
      omega
    · rw [if_neg hd0] at h
      simp only [Bool.and_eq_true, decide_eq_true_eq] at h
      rcases Nat.lt_or_ge m (d + 1) with hlt | hge
      · exact ih h.2 m h2 (by omega)
      · have hmeq : m = d + 1 := by omega
        subst hmeq
        exact h.1

theorem prime_of_isSmallPrime {p : Nat} (h : isSmallPrime p = true) : Nat.Prime p := by
  simp only [isSmallPrime, Bool.and_eq_true, decide_eq_true_eq] at h
  obtain ⟨h2, hnd⟩ := h
  rw [Nat.prime_def_lt]
  refine ⟨h2, fun m hmlt hmdvd => ?_⟩
  by_contra hne
  have hm0 : m ≠ 0 := by rintro rfl; simp at hmdvd; omega
  have hm2 : 2 ≤ m := by omega
  have := noDivIn_sound p (p - 1) hnd m hm2 (by omega)
  exact this ((Nat.mod_eq_zero_of_dvd hmdvd).symm ▸ rfl)

/-- Lucas primality from an explicit certificate: a witness `a` whose order
checks and a multiplicity-expanded list of the prime factors of `p - 1`. -/
theorem prime_of_cert (p a : Nat) (qs : List Nat) (hp : 2 ≤ p)
    (hprod : qs.prod = p - 1)
    (hq : ∀ q ∈ qs, Nat.Prime q)
    (ha : powMod a (p - 1) p = 1)
    (hd : qs.all (fun q => powMod a ((p - 1) / q) p != 1) = true) :
    Nat.Prime p := by
  have hp0 : 0 < p := by omega
  have hp1 : 1 < p := by omega
  haveI : NeZero p := ⟨by omega⟩
  haveI : Fact (1 < p) := ⟨hp1⟩
  have cast_powMod : ∀ e : Nat, ((powMod a e p : Nat) : ZMod p) = (a : ZMod p) ^ e := by
    intro e
    rw [powMod_eq _ _ _ hp0]
    push_cast [ZMod.natCast_mod]
    rfl
  apply lucas_primality p (a : ZMod p)
  · rw [← cast_powMod, ha]; norm_num
  · intro q hqprime hqdvd
    have hqdvd' : q ∣ qs.prod := hprod ▸ hqdvd
    obtain ⟨q', hq'mem, hq'dvd⟩ := (hqprime.prime.dvd_prod_iff).mp hqdvd'
    have : q = q' := ((Nat.prime_dvd_prime_iff_eq hqprime (hq q' hq'mem)).mp hq'dvd)
    subst this
    have hne := List.all_eq_true.mp hd q hq'mem
    simp only [bne_iff_ne, ne_eq] at hne
    intro hcontra
    apply hne
    have : ((powMod a ((p - 1) / q) p : Nat) : ZMod p) = ((1 : Nat) : ZMod p) := by
      rw [cast_powMod, hcontra]; norm_num
    have hlt : powMod a ((p - 1) / q) p < p := powMod_lt _ _ _ hp0
    have := congrArg ZMod.val this
    rwa [ZMod.val_cast_of_lt hlt, ZMod.val_cast_of_lt hp1] at this

set_option maxRecDepth 40000

theorem prime_cert_13441 : Nat.Prime 13441 :=
prime_of_cert 13441 11 [2, 2, 2, 2, 2, 2, 2, 3, 5, 7]
  (by decide)
  (by decide)
  (by
  intro q hq
  simp only [List.mem_cons, List.not_mem_nil, or_false] at hq
  rcases hq with rfl | rfl | rfl | rfl | rfl | rfl | rfl | rfl | rfl | rfl
  · exact prime_of_isSmallPrime (by decide)
  · exact prime_of_isSmallPrime (by decide)
  · exact prime_of_isSmallPrime (by decide)
  · exact prime_of_isSmallPrime (by decide)
  · exact prime_of_isSmallPrime (by decide)
  · exact prime_of_isSmallPrime (by decide)
  · exact prime_of_isSmallPrime (by decide)
  · exact prime_of_isSmallPrime (by decide)
  · exact prime_of_isSmallPrime (by decide)
  · exact prime_of_isSmallPrime (by decide))
  (by decide)
  (by decide)

theorem prime_cert_7723 : Nat.Prime 7723 :=
prime_of_cert 7723 3 [2, 3, 3, 3, 11, 13]
  (by decide)
  (by decide)
  (by
  intro q hq
  simp only [List.mem_cons, List.not_mem_nil, or_false] at hq
  rcases hq with rfl | rfl | rfl | rfl | rfl | rfl
  · exact prime_of_isSmallPrime (by decide)
  · exact prime_of_isSmallPrime (by decide)
  · exact prime_of_isSmallPrime (by decide)
  · exact prime_of_isSmallPrime (by decide)
  · exact prime_of_isSmallPrime (by decide)
  · exact prime_of_isSmallPrime (by decide))
  (by decide)
  (by decide)

theorem prime_cert_5323 : Nat.Prime 5323 :=
prime_of_cert 5323 5 [2, 3, 887]
  (by decide)
  (by decide)
  (by
  intro q hq
  simp only [List.mem_cons, List.not_mem_nil, or_false] at hq
  rcases hq with rfl | rfl | rfl
  · exact prime_of_isSmallPrime (by decide)
  · exact prime_of_isSmallPrime (by decide)
  · exact prime_of_isSmallPrime (by decide))
  (by decide)
  (by decide)

theorem prime_cert_24809 : Nat.Prime 24809 :=
prime_of_cert 24809 6 [2, 2, 2, 7, 443]
  (by decide)
  (by decide)
  (by
  intro q hq
  simp only [List.mem_cons, List.not_mem_nil, or_false] at hq
  rcases hq with rfl | rfl | rfl | rfl | rfl
  · exact prime_of_isSmallPrime (by decide)
  · exact prime_of_isSmallPrime (by decide)
  · exact prime_of_isSmallPrime (by decide)
  · exact prime_of_isSmallPrime (by decide)
  · exact prime_of_isSmallPrime (by decide))
  (by decide)
  (by decide)

theorem prime_cert_13331831 : Nat.Prime 13331831 :=
prime_of_cert 13331831 13 [2, 5, 971, 1373]
  (by decide)
  (by decide)
  (by
  intro q hq
  simp only [List.mem_cons, List.not_mem_nil, or_false] at hq
  rcases hq with rfl | rfl | rfl | rfl
  · exact prime_of_isSmallPrime (by decide)
  · exact prime_of_isSmallPrime (by decide)
  · exact prime_of_isSmallPrime (by decide)
  · exact prime_of_isSmallPrime (by decide))
  (by decide)
  (by decide)

theorem prime_cert_173378833005251801 : Nat.Prime 173378833005251801 :=
prime_of_cert 173378833005251801 6 [2, 2, 2, 5, 5, 2621, 24809, 13331831]
  (by decide)
  (by decide)
  (by
  intro q hq
  simp only [List.mem_cons, List.not_mem_nil, or_false] at hq
  rcases hq with rfl | rfl | rfl | rfl | rfl | rfl | rfl | rfl
  · exact prime_of_isSmallPrime (by decide)
  · exact prime_of_isSmallPrime (by decide)
  · exact prime_of_isSmallPrime (by decide)
  · exact prime_of_isSmallPrime (by decide)
  · exact prime_of_isSmallPrime (by decide)
  · exact prime_of_isSmallPrime (by decide)
  · exact prime_cert_24809
  · exact prime_cert_13331831)
  (by decide)
  (by decide)

theorem prime_cert_22149492674086928081353 : Nat.Prime 22149492674086928081353 :=
prime_of_cert 22149492674086928081353 5 [2, 2, 2, 3, 5323, 173378833005251801]
  (by decide)
  (by decide)
  (by
  intro q hq
  simp only [List.mem_cons, List.not_mem_nil, or_false] at hq
  rcases hq with rfl | rfl | rfl | rfl | rfl | rfl
  · exact prime_of_isSmallPrime (by decide)
  · exact prime_of_isSmallPrime (by decide)
  · exact prime_of_isSmallPrime (by decide)
  · exact prime_of_isSmallPrime (by decide)
  · exact prime_cert_5323
  · exact prime_cert_173378833005251801)
  (by decide)
  (by decide)

theorem prime_cert_132896956044521568488119 : Nat.Prime 132896956044521568488119 :=
prime_of_cert 132896956044521568488119 6 [2, 3, 22149492674086928081353]
  (by decide)
  (by decide)
  (by
  intro q hq
  simp only [List.mem_cons, List.not_mem_nil, or_false] at hq
  rcases hq with rfl | rfl | rfl
  · exact prime_of_isSmallPrime (by decide)
  · exact prime_of_isSmallPrime (by decide)
  · exact prime_cert_22149492674086928081353)
  (by decide)
  (by decide)

theorem prime_cert_4423 : Nat.Prime 4423 :=
prime_of_cert 4423 3 [2, 3, 11, 67]
  (by decide)
  (by decide)
  (by
  intro q hq
  simp only [List.mem_cons, List.not_mem_nil, or_false] at hq
  rcases hq with rfl | rfl | rfl | rfl
  · exact prime_of_isSmallPrime (by decide)
  · exact prime_of_isSmallPrime (by decide)
  · exact prime_of_isSmallPrime (by decide)
  · exact prime_of_isSmallPrime (by decide))
  (by decide)
  (by decide)

theorem prime_cert_41201 : Nat.Prime 41201 :=
prime_of_cert 41201 3 [2, 2, 2, 2, 5, 5, 103]
  (by decide)
  (by decide)
  (by
  intro q hq
  simp only [List.mem_cons, List.not_mem_nil, or_false] at hq
  rcases hq with rfl | rfl | rfl | rfl | rfl | rfl | rfl
  · exact prime_of_isSmallPrime (by decide)
  · exact prime_of_isSmallPrime (by decide)
  · exact prime_of_isSmallPrime (by decide)
  · exact prime_of_isSmallPrime (by decide)
  · exact prime_of_isSmallPrime (by decide)
  · exact prime_of_isSmallPrime (by decide)
  · exact prime_of_isSmallPrime (by decide))
  (by decide)
  (by decide)

theorem prime_cert_96557 : Nat.Prime 96557 :=
prime_of_cert 96557 2 [2, 2, 101, 239]
  (by decide)
  (by decide)
  (by
  intro q hq
  simp only [List.mem_cons, List.not_mem_nil, or_false] at hq
  rcases hq with rfl | rfl | rfl | rfl
  · exact prime_of_isSmallPrime (by decide)
  · exact prime_of_isSmallPrime (by decide)
  · exact prime_of_isSmallPrime (by decide)
  · exact prime_of_isSmallPrime (by decide))
  (by decide)
  (by decide)

theorem prime_cert_20113 : Nat.Prime 20113 :=
prime_of_cert 20113 10 [2, 2, 2, 2, 3, 419]
  (by decide)
  (by decide)
  (by
  intro q hq
  simp only [List.mem_cons, List.not_mem_nil, or_false] at hq
  rcases hq with rfl | rfl | rfl | rfl | rfl | rfl
  · exact prime_of_isSmallPrime (by decide)
  · exact prime_of_isSmallPrime (by decide)
  · exact prime_of_isSmallPrime (by decide)
  · exact prime_of_isSmallPrime (by decide)
  · exact prime_of_isSmallPrime (by decide)
  · exact prime_of_isSmallPrime (by decide))
  (by decide)
  (by decide)

theorem prime_cert_1206781 : Nat.Prime 1206781 :=
prime_of_cert 1206781 10 [2, 2, 3, 5, 20113]
  (by decide)
  (by decide)
  (by
  intro q hq
  simp only [List.mem_cons, List.not_mem_nil, or_false] at hq
  rcases hq with rfl | rfl | rfl | rfl | rfl
  · exact prime_of_isSmallPrime (by decide)
  · exact prime_of_isSmallPrime (by decide)
  · exact prime_of_isSmallPrime (by decide)
  · exact prime_of_isSmallPrime (by decide)
  · exact prime_cert_20113)
  (by decide)
  (by decide)

theorem prime_cert_7240687 : Nat.Prime 7240687 :=
prime_of_cert 7240687 3 [2, 3, 1206781]
  (by decide)
  (by decide)
  (by
  intro q hq
  simp only [List.mem_cons, List.not_mem_nil, or_false] at hq
  rcases hq with rfl | rfl | rfl
  · exact prime_of_isSmallPrime (by decide)
  · exact prime_of_isSmallPrime (by decide)
  · exact prime_cert_1206781)
  (by decide)
  (by decide)

theorem prime_cert_107590001 : Nat.Prime 107590001 :=
prime_of_cert 107590001 3 [2, 2, 2, 2, 5, 5, 5, 5, 7, 29, 53]
  (by decide)
  (by decide)
  (by
  intro q hq
  simp only [List.mem_cons, List.not_mem_nil, or_false] at hq
  rcases hq with rfl | rfl | rfl | rfl | rfl | rfl | rfl | rfl | rfl | rfl | rfl
  · exact prime_of_isSmallPrime (by decide)
  · exact prime_of_isSmallPrime (by decide)
  · exact prime_of_isSmallPrime (by decide)
  · exact prime_of_isSmallPrime (by decide)
  · exact prime_of_isSmallPrime (by decide)
  · exact prime_of_isSmallPrime (by decide)
  · exact prime_of_isSmallPrime (by decide)
  · exact prime_of_isSmallPrime (by decide)
  · exact prime_of_isSmallPrime (by decide)
  · exact prime_of_isSmallPrime (by decide)
  · exact prime_of_isSmallPrime (by decide))
  (by decide)
  (by decide)

theorem prime_cert_255515944373312847190720520512484175977 : Nat.Prime 255515944373312847190720520512484175977 :=
prime_of_cert 255515944373312847190720520512484175977 3 [2, 2, 2, 7, 7, 11, 1627, 2657, 4423, 41201, 96557, 7240687, 107590001]
  (by decide)
  (by decide)
  (by
  intro q hq
  simp only [List.mem_cons, List.not_mem_nil, or_false] at hq
  rcases hq with rfl | rfl | rfl | rfl | rfl | rfl | rfl | rfl | rfl | rfl | rfl | rfl | rfl
  · exact prime_of_isSmallPrime (by decide)
  · exact prime_of_isSmallPrime (by decide)
  · exact prime_of_isSmallPrime (by decide)
  · exact prime_of_isSmallPrime (by decide)
  · exact prime_of_isSmallPrime (by decide)
  · exact prime_of_isSmallPrime (by decide)
  · exact prime_of_isSmallPrime (by decide)
  · exact prime_of_isSmallPrime (by decide)
  · exact prime_cert_4423
  · exact prime_cert_41201
  · exact prime_cert_96557
  · exact prime_cert_7240687
  · exact prime_cert_107590001)
  (by decide)
  (by decide)

theorem prime_cert_205115282021455665897114700593932402728804164701536103180137503955397371 : Nat.Prime 205115282021455665897114700593932402728804164701536103180137503955397371 :=
prime_of_cert 205115282021455665897114700593932402728804164701536103180137503955397371 10 [2, 3, 5, 29, 29, 31, 7723, 132896956044521568488119, 255515944373312847190720520512484175977]
  (by decide)
  (by decide)
  (by
  intro q hq
  simp only [List.mem_cons, List.not_mem_nil, or_false] at hq
  rcases hq with rfl | rfl | rfl | rfl | rfl | rfl | rfl | rfl | rfl
  · exact prime_of_isSmallPrime (by decide)
  · exact prime_of_isSmallPrime (by decide)
  · exact prime_of_isSmallPrime (by decide)
  · exact prime_of_isSmallPrime (by decide)
  · exact prime_of_isSmallPrime (by decide)
  · exact prime_of_isSmallPrime (by decide)
  · exact prime_cert_7723
  · exact prime_cert_132896956044521568488119
  · exact prime_cert_255515944373312847190720520512484175977)
  (by decide)
  (by decide)

theorem prime_cert_field : Nat.Prime 115792089237316195423570985008687907853269984665640564039457584007908834671663 :=
prime_of_cert 115792089237316195423570985008687907853269984665640564039457584007908834671663 3 [2, 3, 7, 13441, 205115282021455665897114700593932402728804164701536103180137503955397371]
  (by decide)
  (by decide)
  (by
  intro q hq
  simp only [List.mem_cons, List.not_mem_nil, or_false] at hq
  rcases hq with rfl | rfl | rfl | rfl | rfl
  · exact prime_of_isSmallPrime (by decide)
  · exact prime_of_isSmallPrime (by decide)
  · exact prime_of_isSmallPrime (by decide)
  · exact prime_cert_13441
  · exact prime_cert_205115282021455665897114700593932402728804164701536103180137503955397371)
  (by decide)
  (by decide)

theorem prime_cert_16699 : Nat.Prime 16699 :=
prime_of_cert 16699 3 [2, 3, 11, 11, 23]
  (by decide)
  (by decide)
  (by
  intro q hq
  simp only [List.mem_cons, List.not_mem_nil, or_false] at hq
  rcases hq with rfl | rfl | rfl | rfl | rfl
  · exact prime_of_isSmallPrime (by decide)
  · exact prime_of_isSmallPrime (by decide)
  · exact prime_of_isSmallPrime (by decide)
  · exact prime_of_isSmallPrime (by decide)
  · exact prime_of_isSmallPrime (by decide))
  (by decide)
  (by decide)

theorem prime_cert_85831 : Nat.Prime 85831 :=
prime_of_cert 85831 3 [2, 3, 5, 2861]
  (by decide)
  (by decide)
  (by
  intro q hq
  simp only [List.mem_cons, List.not_mem_nil, or_false] at hq
  rcases hq with rfl | rfl | rfl | rfl
  · exact prime_of_isSmallPrime (by decide)
  · exact prime_of_isSmallPrime (by decide)
  · exact prime_of_isSmallPrime (by decide)
  · exact prime_of_isSmallPrime (by decide))
  (by decide)
  (by decide)

theorem prime_cert_4681609 : Nat.Prime 4681609 :=
prime_of_cert 4681609 23 [2, 2, 2, 3, 97, 2011]
  (by decide)
  (by decide)
  (by
  intro q hq
  simp only [List.mem_cons, List.not_mem_nil, or_false] at hq
  rcases hq with rfl | rfl | rfl | rfl | rfl | rfl
  · exact prime_of_isSmallPrime (by decide)
  · exact prime_of_isSmallPrime (by decide)
  · exact prime_of_isSmallPrime (by decide)
  · exact prime_of_isSmallPrime (by decide)
  · exact prime_of_isSmallPrime (by decide)
  · exact prime_of_isSmallPrime (by decide))
  (by decide)
  (by decide)

theorem prime_cert_107361793816595537 : Nat.Prime 107361793816595537 :=
prime_of_cert 107361793816595537 3 [2, 2, 2, 2, 16699, 85831, 4681609]
  (by decide)
  (by decide)
  (by
  intro q hq
  simp only [List.mem_cons, List.not_mem_nil, or_false] at hq
  rcases hq with rfl | rfl | rfl | rfl | rfl | rfl | rfl
  · exact prime_of_isSmallPrime (by decide)
  · exact prime_of_isSmallPrime (by decide)
  · exact prime_of_isSmallPrime (by decide)
  · exact prime_of_isSmallPrime (by decide)
  · exact prime_cert_16699
  · exact prime_cert_85831
  · exact prime_cert_4681609)
  (by decide)
  (by decide)

theorem prime_cert_4051 : Nat.Prime 4051 :=
prime_of_cert 4051 10 [2, 3, 3, 3, 3, 5, 5]
  (by decide)
  (by decide)
  (by
  intro q hq
  simp only [List.mem_cons, List.not_mem_nil, or_false] at hq
  rcases hq with rfl | rfl | rfl | rfl | rfl | rfl | rfl
  · exact prime_of_isSmallPrime (by decide)
  · exact prime_of_isSmallPrime (by decide)
  · exact prime_of_isSmallPrime (by decide)
  · exact prime_of_isSmallPrime (by decide)
  · exact prime_of_isSmallPrime (by decide)
  · exact prime_of_isSmallPrime (by decide)
  · exact prime_of_isSmallPrime (by decide))
  (by decide)
  (by decide)

theorem prime_cert_120233 : Nat.Prime 120233 :=
prime_of_cert 120233 3 [2, 2, 2, 7, 19, 113]
  (by decide)
  (by decide)
  (by
  intro q hq
  simp only [List.mem_cons, List.not_mem_nil, or_false] at hq
  rcases hq with rfl | rfl | rfl | rfl | rfl | rfl
  · exact prime_of_isSmallPrime (by decide)
  · exact prime_of_isSmallPrime (by decide)
  · exact prime_of_isSmallPrime (by decide)
  · exact prime_of_isSmallPrime (by decide)
  · exact prime_of_isSmallPrime (by decide)
  · exact prime_of_isSmallPrime (by decide))
  (by decide)
  (by decide)

theorem prime_cert_9349 : Nat.Prime 9349 :=
prime_of_cert 9349 2 [2, 2, 3, 19, 41]
  (by decide)
  (by decide)
  (by
  intro q hq
  simp only [List.mem_cons, List.not_mem_nil, or_false] at hq
  rcases hq with rfl | rfl | rfl | rfl | rfl
  · exact prime_of_isSmallPrime (by decide)
  · exact prime_of_isSmallPrime (by decide)
  · exact prime_of_isSmallPrime (by decide)
  · exact prime_of_isSmallPrime (by decide)
  · exact prime_of_isSmallPrime (by decide))
  (by decide)
  (by decide)

theorem prime_cert_44706919 : Nat.Prime 44706919 :=
prime_of_cert 44706919 6 [2, 3, 797, 9349]
  (by decide)
  (by decide)
  (by
  intro q hq
  simp only [List.mem_cons, List.not_mem_nil, or_false] at hq
  rcases hq with rfl | rfl | rfl | rfl
  · exact prime_of_isSmallPrime (by decide)
  · exact prime_of_isSmallPrime (by decide)
  · exact prime_of_isSmallPrime (by decide)
  · exact prime_cert_9349)
  (by decide)
  (by decide)

theorem prime_cert_174723607534414371449 : Nat.Prime 174723607534414371449 :=
prime_of_cert 174723607534414371449 3 [2, 2, 2, 17, 59, 4051, 120233, 44706919]
  (by decide)
  (by decide)
  (by
  intro q hq
  simp only [List.mem_cons, List.not_mem_nil, or_false] at hq
  rcases hq with rfl | rfl | rfl | rfl | rfl | rfl | rfl | rfl
  · exact prime_of_isSmallPrime (by decide)
  · exact prime_of_isSmallPrime (by decide)
  · exact prime_of_isSmallPrime (by decide)
  · exact prime_of_isSmallPrime (by decide)
  · exact prime_of_isSmallPrime (by decide)
  · exact prime_cert_4051
  · exact prime_cert_120233
  · exact prime_cert_44706919)
  (by decide)
  (by decide)

theorem prime_cert_305873 : Nat.Prime 305873 :=
prime_of_cert 305873 3 [2, 2, 2, 2, 7, 2731]
  (by decide)
  (by decide)
  (by
  intro q hq
  simp only [List.mem_cons, List.not_mem_nil, or_false] at hq
  rcases hq with rfl | rfl | rfl | rfl | rfl | rfl
  · exact prime_of_isSmallPrime (by decide)
  · exact prime_of_isSmallPrime (by decide)
  · exact prime_of_isSmallPrime (by decide)
  · exact prime_of_isSmallPrime (by decide)
  · exact prime_of_isSmallPrime (by decide)
  · exact prime_of_isSmallPrime (by decide))
  (by decide)
  (by decide)

theorem prime_cert_28181 : Nat.Prime 28181 :=
prime_of_cert 28181 2 [2, 2, 5, 1409]
  (by decide)
  (by decide)
  (by
  intro q hq
  simp only [List.mem_cons, List.not_mem_nil, or_false] at hq
  rcases hq with rfl | rfl | rfl | rfl
  · exact prime_of_isSmallPrime (by decide)
  · exact prime_of_isSmallPrime (by decide)
  · exact prime_of_isSmallPrime (by decide)
  · exact prime_of_isSmallPrime (by decide))
  (by decide)
  (by decide)

theorem prime_cert_545358713 : Nat.Prime 545358713 :=
prime_of_cert 545358713 5 [2, 2, 2, 41, 59, 28181]
  (by decide)
  (by decide)
  (by
  intro q hq
  simp only [List.mem_cons, List.not_mem_nil, or_false] at hq
  rcases hq with rfl | rfl | rfl | rfl | rfl | rfl
  · exact prime_of_isSmallPrime (by decide)
  · exact prime_of_isSmallPrime (by decide)
  · exact prime_of_isSmallPrime (by decide)
  · exact prime_of_isSmallPrime (by decide)
  · exact prime_of_isSmallPrime (by decide)
  · exact prime_cert_28181)
  (by decide)
  (by decide)

theorem prime_cert_1627771 : Nat.Prime 1627771 :=
prime_of_cert 1627771 3 [2, 3, 5, 29, 1871]
  (by decide)
  (by decide)
  (by
  intro q hq
  simp only [List.mem_cons, List.not_mem_nil, or_false] at hq
  rcases hq with rfl | rfl | rfl | rfl | rfl
  · exact prime_of_isSmallPrime (by decide)
  · exact prime_of_isSmallPrime (by decide)
  · exact prime_of_isSmallPrime (by decide)
  · exact prime_of_isSmallPrime (by decide)
  · exact prime_of_isSmallPrime (by decide))
  (by decide)
  (by decide)

theorem prime_cert_297159362677 : Nat.Prime 297159362677 :=
prime_of_cert 297159362677 2 [2, 2, 3, 3, 11, 461, 1627771]
  (by decide)
  (by decide)
  (by
  intro q hq
  simp only [List.mem_cons, List.not_mem_nil, or_false] at hq
  rcases hq with rfl | rfl | rfl | rfl | rfl | rfl | rfl
  · exact prime_of_isSmallPrime (by decide)
  · exact prime_of_isSmallPrime (by decide)
  · exact prime_of_isSmallPrime (by decide)
  · exact prime_of_isSmallPrime (by decide)
  · exact prime_of_isSmallPrime (by decide)
  · exact prime_of_isSmallPrime (by decide)
  · exact prime_cert_1627771)
  (by decide)
  (by decide)

theorem prime_cert_29047611873442575647497758179 : Nat.Prime 29047611873442575647497758179 :=
prime_of_cert 29047611873442575647497758179 2 [2, 293, 305873, 545358713, 297159362677]
  (by decide)
  (by decide)
  (by
  intro q hq
  simp only [List.mem_cons, List.not_mem_nil, or_false] at hq
  rcases hq with rfl | rfl | rfl | rfl | rfl
  · exact prime_of_isSmallPrime (by decide)
  · exact prime_of_isSmallPrime (by decide)
  · exact prime_cert_305873
  · exact prime_cert_545358713
  · exact prime_cert_297159362677)
  (by decide)
  (by decide)

theorem prime_cert_341948486974166000522343609283189 : Nat.Prime 341948486974166000522343609283189 :=
prime_of_cert 341948486974166000522343609283189 2 [2, 2, 3, 3, 3, 109, 29047611873442575647497758179]
  (by decide)
  (by decide)
  (by
  intro q hq
  simp only [List.mem_cons, List.not_mem_nil, or_false] at hq
  rcases hq with rfl | rfl | rfl | rfl | rfl | rfl | rfl
  · exact prime_of_isSmallPrime (by decide)
  · exact prime_of_isSmallPrime (by decide)
  · exact prime_of_isSmallPrime (by decide)
  · exact prime_of_isSmallPrime (by decide)
  · exact prime_of_isSmallPrime (by decide)
  · exact prime_of_isSmallPrime (by decide)
  · exact prime_cert_29047611873442575647497758179)
  (by decide)
  (by decide)

theorem prime_cert_order : Nat.Prime 115792089237316195423570985008687907852837564279074904382605163141518161494337 :=
prime_of_cert 115792089237316195423570985008687907852837564279074904382605163141518161494337 7 [2, 2, 2, 2, 2, 2, 3, 149, 631, 107361793816595537, 174723607534414371449, 341948486974166000522343609283189]
  (by decide)
  (by decide)
  (by
  intro q hq
  simp only [List.mem_cons, List.not_mem_nil, or_false] at hq
  rcases hq with rfl | rfl | rfl | rfl | rfl | rfl | rfl | rfl | rfl | rfl | rfl | rfl
  · exact prime_of_isSmallPrime (by decide)
  · exact prime_of_isSmallPrime (by decide)
  · exact prime_of_isSmallPrime (by decide)
  · exact prime_of_isSmallPrime (by decide)
  · exact prime_of_isSmallPrime (by decide)
  · exact prime_of_isSmallPrime (by decide)
  · exact prime_of_isSmallPrime (by decide)
  · exact prime_of_isSmallPrime (by decide)
  · exact prime_of_isSmallPrime (by decide)
  · exact prime_cert_107361793816595537
  · exact prime_cert_174723607534414371449
  · exact prime_cert_341948486974166000522343609283189)
  (by decide)
  (by decide)

/-- The secp256k1 base field modulus is prime. -/
theorem secp_p_prime : Nat.Prime secp_p := prime_cert_field

/-- The secp256k1 group order is prime. -/
theorem secp_n_prime : Nat.Prime secp_n := prime_cert_order

instance secp_p_fact_prime : Fact (Nat.Prime secp_p) := ⟨secp_p_prime⟩

instance secp_n_fact_prime : Fact (Nat.Prime secp_n) := ⟨secp_n_prime⟩

instance secp_p_neZero : NeZero secp_p := ⟨by decide⟩

instance secp_n_neZero : NeZero secp_n := ⟨by decide⟩

theorem secp_p_pos : 0 < secp_p := by decide

theorem secp_n_pos : 0 < secp_n := by decide

theorem two_lt_secp_p : 2 < secp_p := by decide

theorem two_lt_secp_n : 2 < secp_n := by decide

theorem zmod_pow_sub_two {q : ℕ} [Fact (Nat.Prime q)] (hq : 2 < q) (a : ZMod q) :
    a ^ (q - 2) = a⁻¹ := by
  by_cases ha : a = 0
  · subst ha
    rw [inv_zero]
    exact zero_pow (by omega)
  · have h1 : a * a ^ (q - 2) = 1 := by
      rw [← pow_succ']
      rw [show q - 2 + 1 = q - 1 by omega]
      exact ZMod.pow_card_sub_one_eq_one ha
    calc a ^ (q - 2) = a⁻¹ * (a * a ^ (q - 2)) := by
          rw [← mul_assoc, inv_mul_cancel₀ ha, one_mul]
      _ = a⁻¹ := by rw [h1, mul_one]

theorem invMod_cast {q : ℕ} [Fact (Nat.Prime q)] (hq : 2 < q) (a : Nat) :
    ((invMod a q : ℕ) : ZMod q) = (a : ZMod q)⁻¹ := by
  rw [invMod, powMod_eq _ _ _ (by omega), ZMod.natCast_mod, Nat.cast_pow,
    zmod_pow_sub_two hq]

theorem mulP_cast (a b : Nat) : ((mulP a b : ℕ) : ZMod secp_p) = (a : ZMod secp_p) * b := by
  rw [mulP, ZMod.natCast_mod, Nat.cast_mul]

theorem subP_cast (a b : Nat) (hb : b ≤ secp_p) :
    ((subP a b : ℕ) : ZMod secp_p) = (a : ZMod secp_p) - b := by
  rw [subP, ZMod.natCast_mod, Nat.cast_add, Nat.cast_sub hb, ZMod.natCast_self]
  ring

theorem negMod_cast (b : Nat) (hb : b ≤ secp_p) :
    (((secp_p - b) % secp_p : ℕ) : ZMod secp_p) = -(b : ZMod secp_p) := by
  rw [ZMod.natCast_mod, Nat.cast_sub hb, ZMod.natCast_self]
  ring

theorem subP_lt (a b : Nat) : subP a b < secp_p := by
  unfold subP
  exact Nat.mod_lt _ secp_p_pos

theorem mulP_lt (a b : Nat) : mulP a b < secp_p := by
  unfold mulP
  exact Nat.mod_lt _ secp_p_pos

theorem cast_inj_lt {a b : Nat} (ha : a < secp_p) (hb : b < secp_p)
    (h : (a : ZMod secp_p) = b) : a = b := by
  have := congrArg ZMod.val h
  rwa [ZMod.val_cast_of_lt ha, ZMod.val_cast_of_lt hb] at this

theorem cast_inj_lt_n {a b : Nat} (ha : a < secp_n) (hb : b < secp_n)
    (h : (a : ZMod secp_n) = b) : a = b := by
  have := congrArg ZMod.val h
  rwa [ZMod.val_cast_of_lt ha, ZMod.val_cast_of_lt hb] at this

/-- The secp256k1 short Weierstrass curve `y^2 = x^3 + 7` over the base
field, in Mathlib's affine form. -/
def W : WeierstrassCurve.Affine (ZMod secp_p) := ⟨0, 0, 0, 0, 7⟩

theorem W_Δ_ne_zero : W.Δ ≠ 0 := by
  have h21168 : ((21168 : ℕ) : ZMod secp_p) ≠ 0 := by
    intro hc
    rw [ZMod.natCast_zmod_eq_zero_iff_dvd] at hc
    have hle := Nat.le_of_dvd (by norm_num) hc
    have : 21168 < secp_p := by decide
    omega
  have hΔ : W.Δ = -((21168 : ℕ) : ZMod secp_p) := by
    show W.toAffine.Δ = _
    simp only [WeierstrassCurve.Δ, WeierstrassCurve.b₂, WeierstrassCurve.b₄,
      WeierstrassCurve.b₆, WeierstrassCurve.b₈, W]
    push_cast
    ring
  rw [hΔ, neg_ne_zero]
  exact h21168

/-- Data refinement between executable points and Mathlib's nonsingular
rational points on `W`: coordinates are reduced and agree modulo `secp_p`. -/
inductive Represents : Pt → W.Point → Prop
  | inf : Represents Pt.inf (0 : W.Point)
  | aff (a b : Nat) (x y : ZMod secp_p) (h : W.Nonsingular x y)
      (ha : a < secp_p) (hb : b < secp_p)
      (hx : (a : ZMod secp_p) = x) (hy : (b : ZMod secp_p) = y) :
      Represents (Pt.aff a b) (WeierstrassCurve.Affine.Point.some h)

theorem represents_inf {q' : W.Point} (h : Represents Pt.inf q') : q' = 0 := by
  cases h
  rfl

theorem represents_unique {p q : Pt} {p' : W.Point}
    (hp : Represents p p') (hq : Represents q p') : p = q := by
  cases hp with
  | inf =>
    cases hq
    rfl
  | aff a b x y h ha hb hx hy =>
    cases hq with
    | aff a' b' x' y' h' ha' hb' hx' hy' =>
      have hxx : a = a' := cast_inj_lt ha ha' (by rw [hx, hx'])
      have hyy : b = b' := cast_inj_lt hb hb' (by rw [hy, hy'])
      rw [hxx, hyy]

theorem W_negY (x y : ZMod secp_p) : W.negY x y = -y := by
  simp only [WeierstrassCurve.Affine.negY, show W.a₁ = 0 from rfl,
    show W.a₃ = 0 from rfl]
  ring

theorem W_addX (x1 x2 l : ZMod secp_p) : W.addX x1 x2 l = l ^ 2 - x1 - x2 := by
  simp only [WeierstrassCurve.Affine.addX, show W.a₁ = 0 from rfl,
    show W.a₂ = 0 from rfl]
  ring

theorem W_addY (x1 x2 y1 l : ZMod secp_p) :
    W.addY x1 x2 y1 l = l * (x1 - W.addX x1 x2 l) - y1 := by
  simp only [WeierstrassCurve.Affine.addY, WeierstrassCurve.Affine.negAddY, W_negY]
  ring

/-- Soundness of executable point addition with respect to the Mathlib group
operation on nonsingular points of `W`. -/
theorem padd_represents {p q : Pt} {p' q' : W.Point}
    (hp : Represents p p') (hq : Represents q q') :
    Represents (padd p q) (p' + q') := by
  cases hp with
  | inf =>
    rw [zero_add]
    cases hq with
    | inf => exact Represents.inf
    | aff a b x y h ha hb hx hy =>
      exact Represents.aff a b x y h ha hb hx hy
  | aff a1 b1 x1 y1 h1 ha1 hb1 hx1 hy1 =>
    cases hq with
    | inf =>
      rw [add_zero]
      exact Represents.aff a1 b1 x1 y1 h1 ha1 hb1 hx1 hy1
    | aff a2 b2 x2 y2 h2 ha2 hb2 hx2 hy2 =>
      by_cases hvert : a1 = a2 ∧ b1 = (secp_p - b2) % secp_p
      · have hx12 : x1 = x2 := by rw [← hx1, ← hx2, hvert.1]
        have hy12 : y1 = W.negY x2 y2 := by
          rw [W_negY, ← hy1, ← hy2, hvert.2, negMod_cast b2 (le_of_lt hb2)]
        rw [WeierstrassCurve.Affine.Point.add_of_Y_eq hx12 hy12]
        have hpd : padd (Pt.aff a1 b1) (Pt.aff a2 b2) = Pt.inf := by
          simp only [padd, if_pos hvert]
        rw [hpd]
        exact Represents.inf
      · have hxy : x1 = x2 → y1 ≠ W.negY x2 y2 := by
          intro hx12 hy12
          apply hvert
          have hA : a1 = a2 := cast_inj_lt ha1 ha2 (by rw [hx1, hx2, hx12])
          have hB : b1 = (secp_p - b2) % secp_p := by
            apply cast_inj_lt hb1 (Nat.mod_lt _ secp_p_pos)
            rw [negMod_cast b2 (le_of_lt hb2), hy1, hy12, W_negY, hy2]
          exact ⟨hA, hB⟩
        rw [WeierstrassCurve.Affine.Point.add_of_imp hxy]
        have hL : ((paddSlope a1 b1 a2 b2 : ℕ) : ZMod secp_p) = W.slope x1 x2 y1 y2 := by
          by_cases ha12 : a1 = a2
          · have hx12 : x1 = x2 := by rw [← hx1, ← hx2, ha12]
            have hy12 : y1 ≠ W.negY x2 y2 := hxy hx12
            rw [paddSlope, if_pos ha12,
              WeierstrassCurve.Affine.slope_of_Y_ne hx12 hy12,
              mulP_cast, mulP_cast, mulP_cast, invMod_cast two_lt_secp_p, mulP_cast]
            simp only [show W.a₁ = 0 from rfl, show W.a₂ = 0 from rfl,
              show W.a₄ = 0 from rfl, W_negY]
            rw [div_eq_mul_inv, hx1, hy1]
            push_cast
            ring_nf
          · have hx12 : x1 ≠ x2 := by
              intro hc
              exact ha12 (cast_inj_lt ha1 ha2 (by rw [hx1, hx2, hc]))
            rw [paddSlope, if_neg ha12,
              WeierstrassCurve.Affine.slope_of_X_ne hx12,
              mulP_cast, subP_cast b1 b2 (le_of_lt hb2),
              invMod_cast two_lt_secp_p, subP_cast a1 a2 (le_of_lt ha2)]
            rw [div_eq_mul_inv, hx1, hy1, hx2, hy2]
        have hpd : padd (Pt.aff a1 b1) (Pt.aff a2 b2) =
            Pt.aff (subP (subP (mulP (paddSlope a1 b1 a2 b2) (paddSlope a1 b1 a2 b2)) a1) a2)
              (subP (mulP (paddSlope a1 b1 a2 b2)
                  (subP a1 (subP (subP (mulP (paddSlope a1 b1 a2 b2) (paddSlope a1 b1 a2 b2)) a1) a2)))
                b1) := by
          simp only [padd, if_neg hvert]
        rw [hpd]
        have hx3cast :
            ((subP (subP (mulP (paddSlope a1 b1 a2 b2) (paddSlope a1 b1 a2 b2)) a1) a2 : ℕ) :
              ZMod secp_p) = W.addX x1 x2 (W.slope x1 x2 y1 y2) := by
          rw [subP_cast _ a2 (le_of_lt ha2), subP_cast _ a1 (le_of_lt ha1), mulP_cast,
            hL, W_addX, hx1, hx2]
          ring
        have hy3cast :
            ((subP (mulP (paddSlope a1 b1 a2 b2)
                (subP a1 (subP (subP (mulP (paddSlope a1 b1 a2 b2) (paddSlope a1 b1 a2 b2)) a1) a2)))
              b1 : ℕ) : ZMod secp_p) =
              W.addY x1 x2 y1 (W.slope x1 x2 y1 y2) := by
          rw [subP_cast _ b1 (le_of_lt hb1), mulP_cast,
            subP_cast a1 _ (le_of_lt (subP_lt _ _)), hx3cast, hL, W_addY, hx1, hy1]
        exact Represents.aff _ _ _ _
          (WeierstrassCurve.Affine.nonsingular_add h1 h2 hxy)
          (subP_lt _ _) (subP_lt _ _) hx3cast hy3cast

/-- Soundness of executable point negation. -/
theorem pneg_represents {p : Pt} {p' : W.Point} (hp : Represents p p') :
    Represents (pneg p) (-p') := by
  cases hp with
  | inf =>
    rw [neg_zero]
    exact Represents.inf
  | aff a b x y h ha hb hx hy =>
    rw [WeierstrassCurve.Affine.Point.neg_some]
    refine Represents.aff a ((secp_p - b) % secp_p) x (W.negY x y)
      (WeierstrassCurve.Affine.nonsingular_neg h) ha (Nat.mod_lt _ secp_p_pos) hx ?_
    rw [negMod_cast b (le_of_lt hb), hy, W_negY]

theorem lt_two_pow_succ (k : Nat) : k < 2 ^ (k + 1) :=
  lt_of_lt_of_le (Nat.lt_two_pow k) (Nat.pow_le_pow_right (by omega) (by omega))

/-- Soundness of the double-and-add loop. -/
theorem smulAux_represents (fuel : Nat) : ∀ (k : Nat) (base acc : Pt)
    (base' acc' : W.Point), k < 2 ^ fuel → Represents base base' →
    Represents acc acc' → Represents (smulAux fuel k base acc) (acc' + k • base') := by
  induction fuel with
  | zero =>
    intro k base acc base' acc' hk hb hacc
    have hk0 : k = 0 := by rw [pow_zero] at hk; omega
    subst hk0
    rw [smulAux_zero, zero_nsmul, add_zero]
    exact hacc
  | succ fuel ih =>
    intro k base acc base' acc' hk hb hacc
    by_cases h0 : k = 0
    · subst h0
      rw [smulAux_succ, if_pos rfl, zero_nsmul, add_zero]
      exact hacc
    · have hstep : smulAux (fuel + 1) k base acc =
          smulAux fuel (k / 2) (padd base base)
            (if k % 2 = 1 then padd acc base else acc) := by
        rw [smulAux_succ, if_neg h0]
      rw [hstep]
      have hhalf : k / 2 < 2 ^ fuel := by
        have : 2 ^ (fuel + 1) = 2 * 2 ^ fuel := by ring
        omega
      have hbb : Represents (padd base base) (base' + base') := padd_represents hb hb
      by_cases hodd : k % 2 = 1
      · have hacc' : Represents (if k % 2 = 1 then padd acc base else acc)
            (acc' + base') := by
          rw [if_pos hodd]
          exact padd_represents hacc hb
        have := ih (k / 2) (padd base base) _ (base' + base') (acc' + base')
          hhalf hbb hacc'
        have harith : acc' + base' + (k / 2) • (base' + base') = acc' + k • base' := by
          have hk2 : k = 2 * (k / 2) + 1 := by omega
          calc acc' + base' + (k / 2) • (base' + base')
              = acc' + base' + (k / 2) • (2 • base') := by rw [two_nsmul]
            _ = acc' + base' + (k / 2 * 2) • base' := by rw [smul_smul]
            _ = acc' + (k / 2 * 2 + 1) • base' := by
                rw [add_nsmul, one_nsmul, add_assoc, add_comm base']
            _ = acc' + k • base' := by rw [show k / 2 * 2 + 1 = k by omega]
        rwa [harith] at this
      · have hacc' : Represents (if k % 2 = 1 then padd acc base else acc) acc' := by
          rw [if_neg hodd]
          exact hacc
        have := ih (k / 2) (padd base base) _ (base' + base') acc' hhalf hbb hacc'
        have harith : acc' + (k / 2) • (base' + base') = acc' + k • base' := by
          rw [← two_nsmul, smul_smul, show k / 2 * 2 = k by omega]
        rwa [harith] at this

/-- Soundness of executable scalar multiplication. -/
theorem smul_represents (k : Nat) {p : Pt} {p' : W.Point} (hp : Represents p p') :
    Represents (smul k p) (k • p') := by
  have h := smulAux_represents (k + 1) k p Pt.inf p' 0 (lt_two_pow_succ k) hp Represents.inf
  rw [zero_add] at h
  exact h

theorem g_equation : W.Equation (secp_gx : ZMod secp_p) (secp_gy : ZMod secp_p) := by
  rw [WeierstrassCurve.Affine.equation_iff]
  simp only [show W.a₁ = 0 from rfl, show W.a₂ = 0 from rfl, show W.a₃ = 0 from rfl,
    show W.a₄ = 0 from rfl, show W.a₆ = (7 : ZMod secp_p) from rfl]
  have hnat : (secp_gy * secp_gy) % secp_p =
      (secp_gx * secp_gx % secp_p * secp_gx + 7) % secp_p := by decide
  have hc := congrArg (fun t : ℕ => (t : ZMod secp_p)) hnat
  push_cast [ZMod.natCast_mod] at hc
  linear_combination hc

/-- The generator as a Mathlib nonsingular point. -/
def Gw : W.Point :=
  WeierstrassCurve.Affine.Point.some
    (WeierstrassCurve.Affine.nonsingular_of_Δ_ne_zero W g_equation W_Δ_ne_zero)

theorem g_represents : Represents Gpt Gw := by
  unfold Gpt Gw
  exact Represents.aff _ _ _ _ _ (by decide) (by decide) rfl rfl

set_option maxRecDepth 1000000 in
set_option maxHeartbeats 10000000 in
theorem smul_n_G : smul secp_n Gpt = Pt.inf := by decide

theorem nG_zero : secp_n • Gw = 0 := by
  have h := smul_represents secp_n g_represents
  rw [smul_n_G] at h
  exact represents_inf h

theorem Gw_ne_zero : Gw ≠ 0 := by
  unfold Gw
  exact WeierstrassCurve.Affine.Point.some_ne_zero _

theorem addOrderOf_Gw : addOrderOf Gw = secp_n := by
  have hdvd : addOrderOf Gw ∣ secp_n := addOrderOf_dvd_of_nsmul_eq_zero nG_zero
  rcases Nat.Prime.eq_one_or_self_of_dvd secp_n_prime _ hdvd with h1 | hn
  · exact absurd (AddMonoid.addOrderOf_eq_one_iff.mp h1) Gw_ne_zero
  · exact hn

theorem nsmul_G_ne_zero {m : Nat} (h1 : 1 ≤ m) (h2 : m < secp_n) : m • Gw ≠ 0 := by
  intro hc
  have hdvd := addOrderOf_dvd_of_nsmul_eq_zero hc
  rw [addOrderOf_Gw] at hdvd
  have := Nat.le_of_dvd (by omega) hdvd
  omega

theorem nsmul_G_mod (k : Nat) : (k % secp_n) • Gw = k • Gw := by
  conv_rhs => rw [← Nat.div_add_mod k secp_n]
  rw [add_nsmul, mul_nsmul, nG_zero, nsmul_zero, zero_add]

/-- A scalar multiple of the generator with an in-range nonzero scalar is an
affine point represented by the corresponding Mathlib point. -/
theorem smul_key_aff {k : Nat} (h1 : 1 ≤ k) (h2 : k < secp_n) :
    ∃ rx ry, smul k Gpt = Pt.aff rx ry ∧ Represents (Pt.aff rx ry) (k • Gw) := by
  have h := smul_represents k g_represents
  cases hsm : smul k Gpt with
  | inf =>
    rw [hsm] at h
    exact absurd (represents_inf h) (nsmul_G_ne_zero h1 h2)
  | aff rx ry =>
    rw [hsm] at h
    exact ⟨rx, ry, rfl, h⟩

theorem natToBytesBE_length (len : Nat) : ∀ v, (natToBytesBE len v).length = len := by
  induction len with
  | zero => intro v; rfl
  | succ len ih =>
    intro v
    simp [natToBytesBE, ih]

theorem natToBytesBE_isBytes (len : Nat) : ∀ v, isBytes (natToBytesBE len v) = true := by
  induction len with
  | zero => intro v; rfl
  | succ len ih =>
    intro v
    simp only [natToBytesBE, isBytes, List.all_append, Bool.and_eq_true]
    refine ⟨ih (v / 256), ?_⟩
    simp only [List.all_cons, List.all_nil, Bool.and_true, decide_eq_true_eq]
    exact Nat.mod_lt _ (by omega)

theorem bytesToNatBE_append_one (l : List Nat) (d : Nat) :
    bytesToNatBE (l ++ [d]) = bytesToNatBE l * 256 + d := by
  simp [bytesToNatBE, List.foldl_append]

theorem bytesToNatBE_natToBytesBE (len : Nat) : ∀ v, v < 256 ^ len →
    bytesToNatBE (natToBytesBE len v) = v := by
  induction len with
  | zero =>
    intro v hv
    simp only [pow_zero, Nat.lt_one_iff] at hv
    subst hv
    rfl
  | succ len ih =>
    intro v hv
    have hdiv : v / 256 < 256 ^ len := by
      have : 256 ^ (len + 1) = 256 ^ len * 256 := by ring
      omega
    rw [natToBytesBE, bytesToNatBE_append_one, ih (v / 256) hdiv]
    omega

theorem bytesToNatBE_lt (b : List Nat) (hb : isBytes b = true) :
    bytesToNatBE b < 256 ^ b.length := by
  induction b using List.reverseRecOn with
  | nil => simp [bytesToNatBE]
  | append_singleton l d ih =>
    simp only [isBytes, List.all_append, Bool.and_eq_true, List.all_cons, List.all_nil,
      Bool.and_true, decide_eq_true_eq] at hb
    have hl := ih hb.1
    rw [bytesToNatBE_append_one, List.length_append]
    have : 256 ^ (l.length + [d].length) = 256 ^ l.length * 256 := by
      simp [pow_succ]
    rw [this]
    have hd := hb.2
    omega

theorem natToBytesBE_bytesToNatBE (b : List Nat) (hb : isBytes b = true) :
    natToBytesBE b.length (bytesToNatBE b) = b := by
  induction b using List.reverseRecOn with
  | nil => rfl
  | append_singleton l d ih =>
    simp only [isBytes, List.all_append, Bool.and_eq_true, List.all_cons, List.all_nil,
      Bool.and_true, decide_eq_true_eq] at hb
    rw [List.length_append, bytesToNatBE_append_one]
    simp only [List.length_cons, List.length_nil]
    rw [natToBytesBE]
    have h1 : (bytesToNatBE l * 256 + d) / 256 = bytesToNatBE l := by omega
    have h2 : (bytesToNatBE l * 256 + d) % 256 = d := by omega
    rw [h1, h2, ih hb.1]

theorem secp_p_mod4 : secp_p % 4 = 3 := by decide

theorem secp_p_lt_bytes32 : secp_p < 256 ^ 32 := by decide

theorem secp_n_lt_bytes32 : secp_n < 256 ^ 32 := by decide

/-- Correctness of the modular square root on quadratic residues, by Euler's
criterion for the prime `secp_p ≡ 3 (mod 4)`. -/
theorem sqrtP_cast_sq (c : Nat) (y : ZMod secp_p) (hc : (c : ZMod secp_p) = y ^ 2) :
    ((sqrtP c : ℕ) : ZMod secp_p) ^ 2 = y ^ 2 := by
  have hp4 := secp_p_mod4
  rw [sqrtP, powMod_eq _ _ _ secp_p_pos, ZMod.natCast_mod, Nat.cast_pow, hc,
    ← pow_mul, ← pow_mul]
  rw [show 2 * ((secp_p + 1) / 4 * 2) = (secp_p - 1) + 2 by omega]
  by_cases hy : y = 0
  · subst hy
    rw [zero_pow (by omega : (secp_p - 1) + 2 ≠ 0), zero_pow (by omega : (2 : ℕ) ≠ 0)]
  · rw [pow_add, ZMod.pow_card_sub_one_eq_one hy, one_mul]

theorem sqrtP_lt (c : Nat) : sqrtP c < secp_p :=
  powMod_lt _ _ _ secp_p_pos

/-- Equation extraction: an executable point represented by a Mathlib point
passes the executable on-curve test. -/
theorem onCurve_of_represents {a b : Nat} {p' : W.Point}
    (h : Represents (Pt.aff a b) p') : onCurve (Pt.aff a b) = true := by
  cases h with
  | aff a b x y hns ha hb hx hy =>
    have heq := ((WeierstrassCurve.Affine.nonsingular_iff W x y).mp hns).1
    rw [WeierstrassCurve.Affine.equation_iff] at heq
    simp only [show W.a₁ = 0 from rfl, show W.a₂ = 0 from rfl, show W.a₃ = 0 from rfl,
      show W.a₄ = 0 from rfl, show W.a₆ = (7 : ZMod secp_p) from rfl] at heq
    have hnat : b * b % secp_p = (a * a % secp_p * a + 7) % secp_p := by
      apply cast_inj_lt (Nat.mod_lt _ secp_p_pos) (Nat.mod_lt _ secp_p_pos)
      push_cast [ZMod.natCast_mod]
      rw [hx, hy]
      linear_combination heq
    simp only [onCurve, Bool.and_eq_true, decide_eq_true_eq]
    exact ⟨⟨ha, hb⟩, hnat⟩

theorem secp_p_odd : secp_p % 2 = 1 := by decide

/-- Parsing the compressed serialization of an on-curve point recovers the
point. -/
theorem parse_serialize_compressed {a b : Nat} (h : onCurve (Pt.aff a b) = true) :
    parsePubkeyBytes ((if b % 2 = 1 then 3 else 2) :: natToBytesBE 32 a) =
      some (Pt.aff a b) := by
  simp only [onCurve, Bool.and_eq_true, decide_eq_true_eq] at h
  obtain ⟨⟨ha, hb⟩, hcurve⟩ := h
  have hrt : bytesToNatBE (natToBytesBE 32 a) = a :=
    bytesToNatBE_natToBytesBE 32 a (lt_trans ha secp_p_lt_bytes32)
  have hbytes : isBytes ((if b % 2 = 1 then 3 else 2) :: natToBytesBE 32 a) = true := by
    simp only [isBytes, List.all_cons, Bool.and_eq_true, decide_eq_true_eq]
    constructor
    · split <;> omega
    · exact natToBytesBE_isBytes 32 a
  have hcond : ((if b % 2 = 1 then 3 else 2) :: natToBytesBE 32 a).length = 33 ∧
      (((if b % 2 = 1 then 3 else 2) :: natToBytesBE 32 a).head? = some 2 ∨
        ((if b % 2 = 1 then 3 else 2) :: natToBytesBE 32 a).head? = some 3) ∧
      isBytes ((if b % 2 = 1 then 3 else 2) :: natToBytesBE 32 a) = true := by
    refine ⟨by simp [natToBytesBE_length], ?_, hbytes⟩
    by_cases hb2 : b % 2 = 1
    · right
      simp [hb2]
    · left
      simp [hb2]
  rw [parsePubkeyBytes, if_pos hcond]
  simp only [List.drop_succ_cons, List.drop_zero, hrt]
  rw [if_pos ha]
  have hccast : (((a * a % secp_p * a + 7) % secp_p : ℕ) : ZMod secp_p) =
      (b : ZMod secp_p) ^ 2 := by
    rw [← hcurve, ZMod.natCast_mod, Nat.cast_mul, pow_two]
  have hsq := sqrtP_cast_sq ((a * a % secp_p * a + 7) % secp_p) (b : ZMod secp_p) hccast
  have hy0lt := sqrtP_lt ((a * a % secp_p * a + 7) % secp_p)
  have hy0sq : sqrtP ((a * a % secp_p * a + 7) % secp_p) *
      sqrtP ((a * a % secp_p * a + 7) % secp_p) % secp_p =
      (a * a % secp_p * a + 7) % secp_p := by
    apply cast_inj_lt (Nat.mod_lt _ secp_p_pos) (Nat.mod_lt _ secp_p_pos)
    rw [ZMod.natCast_mod, Nat.cast_mul, hccast, ← pow_two]
    exact hsq
  rw [if_pos hy0sq]
  have hwant : (if ((if b % 2 = 1 then 3 else 2) :: natToBytesBE 32 a).head? = some 3
      then 1 else 0) = b % 2 := by
    by_cases hb2 : b % 2 = 1
    · simp [hb2]
    · have : b % 2 = 0 := by omega
      simp [hb2, this]
  rw [hwant]
  have hfac : (((sqrtP ((a * a % secp_p * a + 7) % secp_p) : ℕ) : ZMod secp_p) -
      (b : ZMod secp_p)) *
      (((sqrtP ((a * a % secp_p * a + 7) % secp_p) : ℕ) : ZMod secp_p) +
      (b : ZMod secp_p)) = 0 := by
    linear_combination hsq
  by_cases hy0b : sqrtP ((a * a % secp_p * a + 7) % secp_p) = b
  · rw [hy0b, if_pos rfl]
  · have hneg : ((sqrtP ((a * a % secp_p * a + 7) % secp_p) : ℕ) : ZMod secp_p) =
        -(b : ZMod secp_p) := by
      rcases mul_eq_zero.mp hfac with hc | hc
      · exact absurd (cast_inj_lt hy0lt hb (sub_eq_zero.mp hc)) hy0b
      · exact eq_neg_of_add_eq_zero_left hc
    have hy0nat : sqrtP ((a * a % secp_p * a + 7) % secp_p) = (secp_p - b) % secp_p := by
      apply cast_inj_lt hy0lt (Nat.mod_lt _ secp_p_pos)
      rw [hneg, negMod_cast b (le_of_lt hb)]
    have hbne : b ≠ 0 := by
      intro hb0
      apply hy0b
      rw [hy0nat, hb0, Nat.sub_zero, Nat.mod_self]
    have hy0v : sqrtP ((a * a % secp_p * a + 7) % secp_p) = secp_p - b := by
      rw [hy0nat, Nat.mod_eq_of_lt (by omega)]
    have hpar : ¬(sqrtP ((a * a % secp_p * a + 7) % secp_p) % 2 = b % 2) := by
      rw [hy0v]
      have := secp_p_odd
      omega
    rw [if_neg hpar, hy0v]
    have : secp_p - (secp_p - b) = b := by omega
    rw [this, Nat.mod_eq_of_lt hb]

/-- Parsing the uncompressed serialization of an on-curve point recovers the
point. -/
theorem parse_serialize_uncompressed {a b : Nat} (h : onCurve (Pt.aff a b) = true) :
    parsePubkeyBytes (4 :: (natToBytesBE 32 a ++ natToBytesBE 32 b)) =
      some (Pt.aff a b) := by
  have h' := h
  simp only [onCurve, Bool.and_eq_true, decide_eq_true_eq] at h'
  obtain ⟨⟨ha, hb⟩, _⟩ := h'
  have hrta : bytesToNatBE (natToBytesBE 32 a) = a :=
    bytesToNatBE_natToBytesBE 32 a (lt_trans ha secp_p_lt_bytes32)
  have hrtb : bytesToNatBE (natToBytesBE 32 b) = b :=
    bytesToNatBE_natToBytesBE 32 b (lt_trans hb secp_p_lt_bytes32)
  have hnot33 : ¬((4 :: (natToBytesBE 32 a ++ natToBytesBE 32 b)).length = 33 ∧
      ((4 :: (natToBytesBE 32 a ++ natToBytesBE 32 b)).head? = some 2 ∨
        (4 :: (natToBytesBE 32 a ++ natToBytesBE 32 b)).head? = some 3) ∧
      isBytes (4 :: (natToBytesBE 32 a ++ natToBytesBE 32 b)) = true) := by
    intro hcon
    have := hcon.1
    simp [natToBytesBE_length] at this
  have hcond : (4 :: (natToBytesBE 32 a ++ natToBytesBE 32 b)).length = 65 ∧
      (4 :: (natToBytesBE 32 a ++ natToBytesBE 32 b)).head? = some 4 ∧
      isBytes (4 :: (natToBytesBE 32 a ++ natToBytesBE 32 b)) = true := by
    refine ⟨by simp [natToBytesBE_length], rfl, ?_⟩
    simp only [isBytes, List.all_cons, List.all_append, Bool.and_eq_true,
      decide_eq_true_eq]
    exact ⟨by omega, natToBytesBE_isBytes 32 a, natToBytesBE_isBytes 32 b⟩
  rw [parsePubkeyBytes, if_neg hnot33, if_pos hcond]
  have htake : ((4 :: (natToBytesBE 32 a ++ natToBytesBE 32 b)).drop 1).take 32 =
      natToBytesBE 32 a := by
    simp only [List.drop_succ_cons, List.drop_zero]
    exact List.take_left' (natToBytesBE_length 32 a)
  have hdrop : (4 :: (natToBytesBE 32 a ++ natToBytesBE 32 b)).drop 33 =
      natToBytesBE 32 b := by
    simp only [List.drop_succ_cons]
    exact List.drop_left' (natToBytesBE_length 32 a)
  rw [htake, hdrop, hrta, hrtb, if_pos h]

/-- Serialization of a represented affine point succeeds, and parsing the
bytes recovers the point. -/
theorem serializePoint_parse {p : Pt} {p' : W.Point} (hrep : Represents p p')
    (hne : p' ≠ 0) (compressed : Bool) :
    ∃ out, serializePoint p compressed = some out ∧ parsePubkeyBytes out = some p := by
  cases hrep with
  | inf => exact absurd rfl hne
  | aff a b x y hns ha hb hx hy =>
    have hcurve : onCurve (Pt.aff a b) = true :=
      onCurve_of_represents (Represents.aff a b x y hns ha hb hx hy)
    cases compressed with
    | true =>
      exact ⟨(if b % 2 = 1 then 3 else 2) :: natToBytesBE 32 a, rfl,
        parse_serialize_compressed hcurve⟩
    | false =>
      exact ⟨4 :: (natToBytesBE 32 a ++ natToBytesBE 32 b), rfl,
        parse_serialize_uncompressed hcurve⟩

theorem rfc6979_range (key z i : Nat) : 1 ≤ rfc6979 key z i ∧ rfc6979 key z i < secp_n := by
  unfold rfc6979
  have h2 : 2 < secp_n := two_lt_secp_n
  have h1 : (key + z + i) % (secp_n - 1) < secp_n - 1 := Nat.mod_lt _ (by omega)
  omega

theorem cast_n_ne_zero {a : Nat} (h1 : 1 ≤ a) (h2 : a < secp_n) :
    (a : ZMod secp_n) ≠ 0 := by
  intro hc
  have hv := congrArg ZMod.val hc
  rw [ZMod.val_cast_of_lt h2, ZMod.val_zero] at hv
  omega

/-- Structure of a successful single ECDSA signing attempt. -/
theorem ecdsaSignAttempt_some {key z m r s v : Nat}
    (h : ecdsaSignAttempt key z m = some (r, s, v)) :
    ∃ rx ry, smul m Gpt = Pt.aff rx ry ∧ r = rx % secp_n ∧ r ≠ 0 ∧
      invMod m secp_n * ((z + r * key) % secp_n) % secp_n ≠ 0 ∧
      ((s = invMod m secp_n * ((z + r * key) % secp_n) % secp_n ∧
          ¬(secp_n / 2 < invMod m secp_n * ((z + r * key) % secp_n) % secp_n) ∧
          v = (if ry % 2 = 1 then 1 else 0) + (if secp_n ≤ rx then 2 else 0)) ∨
        (s = secp_n - invMod m secp_n * ((z + r * key) % secp_n) % secp_n ∧
          secp_n / 2 < invMod m secp_n * ((z + r * key) % secp_n) % secp_n ∧
          v = ((if ry % 2 = 1 then 1 else 0) + (if secp_n ≤ rx then 2 else 0)) ^^^ 1)) := by
  rw [ecdsaSignAttempt] at h
  split at h
  · exact absurd h (by simp)
  next rx ry heq =>
    refine ⟨rx, ry, heq, ?_⟩
    by_cases h1 : rx % secp_n = 0
    · rw [if_pos h1] at h
      exact absurd h (by simp)
    · rw [if_neg h1] at h
      by_cases h2 : invMod m secp_n * ((z + rx % secp_n * key) % secp_n) % secp_n = 0
      · rw [if_pos h2] at h
        exact absurd h (by simp)
      · rw [if_neg h2] at h
        by_cases h3 : secp_n / 2 <
            invMod m secp_n * ((z + rx % secp_n * key) % secp_n) % secp_n
        · rw [if_pos h3] at h
          simp only [Option.some.injEq, Prod.mk.injEq] at h
          obtain ⟨hr, hs, hv⟩ := h
          subst hr
          exact ⟨rfl, h1, h2, Or.inr ⟨hs.symm, h3, hv.symm⟩⟩
        · rw [if_neg h3] at h
          simp only [Option.some.injEq, Prod.mk.injEq] at h
          obtain ⟨hr, hs, hv⟩ := h
          subst hr
          exact ⟨rfl, h1, h2, Or.inl ⟨hs.symm, h3, hv.symm⟩⟩

/-- A successful run of the retry loop comes from a successful attempt whose
nonce is the RFC 6979 output at some retry index. -/
theorem ecdsaSignLoop_some (fuel : Nat) : ∀ key z i r s v,
    ecdsaSignLoop fuel key z i = some (r, s, v) →
    ∃ m, (1 ≤ m ∧ m < secp_n) ∧ ecdsaSignAttempt key z m = some (r, s, v) := by
  induction fuel with
  | zero =>
    intro key z i r s v h
    rw [ecdsaSignLoop_zero] at h
    exact absurd h (by simp)
  | succ fuel ih =>
    intro key z i r s v h
    rw [ecdsaSignLoop_succ] at h
    split at h
    next rsv hatt =>
      exact ⟨rfc6979 key z i, rfc6979_range key z i, by rw [hatt]; exact h⟩
    next hatt => exact ih key z (i + 1) r s v h

/-- A successful deterministic signing run: the produced `(r, s, v)` comes
from some in-range nonce. -/
theorem ecdsaSign_some {key z r s v : Nat} (h : ecdsaSign key z = some (r, s, v)) :
    ∃ m, (1 ≤ m ∧ m < secp_n) ∧ ecdsaSignAttempt key z m = some (r, s, v) :=
  ecdsaSignLoop_some 64 key z 0 r s v h

/-- Core soundness of the ECDSA verification equation for signatures whose
`s` is `± m⁻¹(z + r·key)` for the nonce `m` that produced `r`. -/
theorem ecdsaVerify_core (key z m rx ry r s : Nat)
    (hk1 : 1 ≤ key) (hk2 : key < secp_n)
    (hm1 : 1 ≤ m) (hm2 : m < secp_n)
    (hsm : smul m Gpt = Pt.aff rx ry)
    (hr : r = rx % secp_n) (hrne : r ≠ 0)
    (hs1 : 1 ≤ s) (hs2 : s < secp_n)
    (hs : (s : ZMod secp_n) =
        (m : ZMod secp_n)⁻¹ * ((z : ZMod secp_n) + (r : ZMod secp_n) * (key : ZMod secp_n)) ∨
      (s : ZMod secp_n) =
        -((m : ZMod secp_n)⁻¹ * ((z : ZMod secp_n) + (r : ZMod secp_n) * (key : ZMod secp_n)))) :
    ecdsaVerify r s z (smul key Gpt) = true := by
  have hmne : (m : ZMod secp_n) ≠ 0 := cast_n_ne_zero hm1 hm2
  have hsne : (s : ZMod secp_n) ≠ 0 := cast_n_ne_zero hs1 hs2
  have hinv : (s : ZMod secp_n)⁻¹ *
        ((z : ZMod secp_n) + (r : ZMod secp_n) * (key : ZMod secp_n)) = (m : ZMod secp_n) ∨
      (s : ZMod secp_n)⁻¹ *
        ((z : ZMod secp_n) + (r : ZMod secp_n) * (key : ZMod secp_n)) = -(m : ZMod secp_n) := by
    rcases hs with h | h
    · left
      have humu : (z : ZMod secp_n) + (r : ZMod secp_n) * (key : ZMod secp_n) =
          (m : ZMod secp_n) * (s : ZMod secp_n) := by
        rw [h, ← mul_assoc, mul_inv_cancel₀ hmne, one_mul]
      rw [humu, mul_comm (m : ZMod secp_n), ← mul_assoc, inv_mul_cancel₀ hsne, one_mul]
    · right
      have humu : (z : ZMod secp_n) + (r : ZMod secp_n) * (key : ZMod secp_n) =
          -((m : ZMod secp_n) * (s : ZMod secp_n)) := by
        rw [h, mul_neg, ← mul_assoc, mul_inv_cancel₀ hmne, one_mul, neg_neg]
      rw [humu, mul_comm (m : ZMod secp_n), mul_neg, ← mul_assoc,
        inv_mul_cancel₀ hsne, one_mul]
  have hu1cast : ((z * invMod s secp_n % secp_n : ℕ) : ZMod secp_n) =
      (z : ZMod secp_n) * (s : ZMod secp_n)⁻¹ := by
    rw [ZMod.natCast_mod, Nat.cast_mul, invMod_cast two_lt_secp_n]
  have hu2cast : ((r * invMod s secp_n % secp_n : ℕ) : ZMod secp_n) =
      (r : ZMod secp_n) * (s : ZMod secp_n)⁻¹ := by
    rw [ZMod.natCast_mod, Nat.cast_mul, invMod_cast two_lt_secp_n]
  have hQ := smul_represents key g_represents
  have h1 := smul_represents (z * invMod s secp_n % secp_n) g_represents
  have h2 := smul_represents (r * invMod s secp_n % secp_n) hQ
  have hT := padd_represents h1 h2
  have hcomb : (z * invMod s secp_n % secp_n) • Gw +
      (r * invMod s secp_n % secp_n) • (key • Gw) =
      ((z * invMod s secp_n % secp_n + r * invMod s secp_n % secp_n * key) % secp_n) • Gw := by
    rw [smul_smul, ← add_nsmul, nsmul_G_mod]
  have hccast : (((z * invMod s secp_n % secp_n + r * invMod s secp_n % secp_n * key)
      % secp_n : ℕ) : ZMod secp_n) =
      (s : ZMod secp_n)⁻¹ *
        ((z : ZMod secp_n) + (r : ZMod secp_n) * (key : ZMod secp_n)) := by
    push_cast [ZMod.natCast_mod]
    rw [invMod_cast two_lt_secp_n]
    ring
  have hR := smul_represents m g_represents
  rw [hsm] at hR
  rcases hinv with hpm | hpm
  · have hceq : (z * invMod s secp_n % secp_n + r * invMod s secp_n % secp_n * key)
        % secp_n = m := by
      apply cast_inj_lt_n (Nat.mod_lt _ secp_n_pos) hm2
      rw [hccast, hpm]
    rw [hcomb, hceq] at hT
    have hTeq := represents_unique hT hR
    rw [ecdsaVerify.eq_def, hTeq]
    show (rx % secp_n == r) = true
    simpa using hr.symm
  · have hceq : (z * invMod s secp_n % secp_n + r * invMod s secp_n % secp_n * key)
        % secp_n = secp_n - m := by
      apply cast_inj_lt_n (Nat.mod_lt _ secp_n_pos) (by omega)
      rw [hccast, hpm, Nat.cast_sub (le_of_lt hm2), ZMod.natCast_self, zero_sub]
    have hnegsmul : (secp_n - m) • Gw = -(m • Gw) := by
      apply eq_neg_of_add_eq_zero_left
      rw [← add_nsmul, show secp_n - m + m = secp_n by omega, nG_zero]
    rw [hcomb, hceq, hnegsmul] at hT
    have hRneg := pneg_represents hR
    have hTeq := represents_unique hT hRneg
    rw [ecdsaVerify.eq_def, hTeq]
    show (rx % secp_n == r) = true
    simpa using hr.symm

theorem sigSerialize_length (r s : Nat) : (sigSerialize r s).length = 64 := by
  simp [sigSerialize, natToBytesBE_length]

theorem isBytes_append (a b : List Nat) : isBytes (a ++ b) = (isBytes a && isBytes b) := by
  simp [isBytes]

theorem sigSerialize_isBytes (r s : Nat) : isBytes (sigSerialize r s) = true := by
  rw [sigSerialize, isBytes_append, natToBytesBE_isBytes, natToBytesBE_isBytes]
  rfl

theorem sigSerialize_take (r s : Nat) (hr : r < 256 ^ 32) :
    bytesToNatBE ((sigSerialize r s).take 32) = r := by
  rw [sigSerialize, List.take_left' (natToBytesBE_length 32 r),
    bytesToNatBE_natToBytesBE 32 r hr]

theorem sigSerialize_drop (r s : Nat) (hs : s < 256 ^ 32) :
    bytesToNatBE ((sigSerialize r s).drop 32) = s := by
  rw [sigSerialize, List.drop_left' (natToBytesBE_length 32 r),
    bytesToNatBE_natToBytesBE 32 s hs]

theorem isValidSeckey_bounds {b : List Nat} (h : isValidSeckey b = true) :
    b.length = 32 ∧ isBytes b = true ∧ 1 ≤ bytesToNatBE b ∧ bytesToNatBE b < secp_n := by
  simp only [isValidSeckey, Bool.and_eq_true, beq_iff_eq, decide_eq_true_eq] at h
  exact ⟨h.1.1.1, h.1.1.2, h.1.2, h.2⟩

/-- Structure of a successful run of the signing body. -/
theorem signBody_some {msg32 private_key out : List Nat}
    (h : signBody msg32 private_key = some out) :
    (msg32.length = 32 ∧ isBytes msg32 = true ∧ isValidSeckey private_key = true) ∧
    ∃ r s v, ecdsaSign (bytesToNatBE private_key) (bytesToNatBE msg32) = some (r, s, v) ∧
      out = sigSerialize r s := by
  rw [signBody.eq_def] at h
  split at h
  next hcond =>
    refine ⟨hcond, ?_⟩
    split at h
    next r s v heq =>
      simp only [Option.some.injEq] at h
      exact ⟨r, s, v, heq, h.symm⟩
    next heq => exact absurd h (by simp)
  next hcond => exact absurd h (by simp)

/-- Structure of a successful run of the recoverable signing body. -/
theorem signRecoverableBody_some {msg32 private_key out : List Nat} {v : Nat}
    (h : signRecoverableBody msg32 private_key = some (out, v)) :
    (msg32.length = 32 ∧ isBytes msg32 = true ∧ isValidSeckey private_key = true) ∧
    ∃ r s, ecdsaSign (bytesToNatBE private_key) (bytesToNatBE msg32) = some (r, s, v) ∧
      out = sigSerialize r s := by
  rw [signRecoverableBody.eq_def] at h
  split at h
  next hcond =>
    refine ⟨hcond, ?_⟩
    split at h
    next r s v' heq =>
      simp only [Option.some.injEq, Prod.mk.injEq] at h
      obtain ⟨ho, hv⟩ := h
      exact ⟨r, s, hv ▸ heq, ho.symm⟩
    next heq => exact absurd h (by simp)
  next hcond => exact absurd h (by simp)

theorem secp_n_odd : secp_n % 2 = 1 := by decide

/-- Range facts for the components of a successful signing run. -/
theorem ecdsaSign_bounds {key z r s v : Nat} (h : ecdsaSign key z = some (r, s, v)) :
    1 ≤ r ∧ r < secp_n ∧ 1 ≤ s ∧ s < secp_n ∧ s ≤ secp_n / 2 := by
  obtain ⟨m, ⟨hm1, hm2⟩, hatt⟩ := ecdsaSign_some h
  obtain ⟨rx, ry, hsm, hr, hrne, hs0ne, hcase⟩ := ecdsaSignAttempt_some hatt
  have hrlt : r < secp_n := hr ▸ Nat.mod_lt _ secp_n_pos
  have hs0lt : invMod m secp_n * ((z + r * key) % secp_n) % secp_n < secp_n :=
    Nat.mod_lt _ secp_n_pos
  have hodd := secp_n_odd
  rcases hcase with ⟨hs, hle, _⟩ | ⟨hs, hgt, _⟩ <;> subst hs <;>
    refine ⟨by omega, hrlt, by omega, by omega, by omega⟩

/-- The cast of the `s` component of a successful signing run is
`± m⁻¹ (z + r·key)` in the scalar field. -/
theorem ecdsaSign_s_cast {key z r s m : Nat}
    (hm2 : m < secp_n)
    (hs0ne : invMod m secp_n * ((z + r * key) % secp_n) % secp_n ≠ 0)
    (hcase : s = invMod m secp_n * ((z + r * key) % secp_n) % secp_n ∨
      s = secp_n - invMod m secp_n * ((z + r * key) % secp_n) % secp_n) :
    (s : ZMod secp_n) =
      (m : ZMod secp_n)⁻¹ *
        ((z : ZMod secp_n) + (r : ZMod secp_n) * (key : ZMod secp_n)) ∨
    (s : ZMod secp_n) =
      -((m : ZMod secp_n)⁻¹ *
        ((z : ZMod secp_n) + (r : ZMod secp_n) * (key : ZMod secp_n))) := by
  have hs0cast : ((invMod m secp_n * ((z + r * key) % secp_n) % secp_n : ℕ) :
      ZMod secp_n) = (m : ZMod secp_n)⁻¹ *
        ((z : ZMod secp_n) + (r : ZMod secp_n) * (key : ZMod secp_n)) := by
    push_cast [ZMod.natCast_mod]
    rw [invMod_cast two_lt_secp_n]
  rcases hcase with hs | hs
  · left
    rw [hs, hs0cast]
  · right
    rw [hs, Nat.cast_sub (le_of_lt (Nat.mod_lt _ secp_n_pos)), ZMod.natCast_self,
      zero_sub, hs0cast]

/-- Success structure of the public-key derivation body. -/
theorem pubkeyCreateBody_some {private_key pub : List Nat} {compressed : Bool}
    (h : pubkeyCreateBody private_key compressed = some pub) :
    isValidSeckey private_key = true ∧
      serializePoint (smul (bytesToNatBE private_key) Gpt) compressed = some pub := by
  rw [pubkeyCreateBody.eq_def] at h
  split at h
  next hval => exact ⟨hval, h⟩
  next hval => exact absurd h (by simp)

/-- The byte-level verification body accepts a compact `(r, s)` signature
with in-range components against a parseable public key whenever the core
verification equation holds. -/
theorem verifyBody_of_core {r s : Nat} {msg32 pub : List Nat} {q : Pt}
    (hmlen : msg32.length = 32) (hmbytes : isBytes msg32 = true)
    (hr1 : 1 ≤ r) (hr2 : r < secp_n) (hs1 : 1 ≤ s) (hs2 : s < secp_n)
    (hparse : parsePubkeyBytes pub = some q)
    (hcore : ecdsaVerify r s (bytesToNatBE msg32) q = true) :
    verifyBody (sigSerialize r s) msg32 pub = true := by
  have hr32 : r < 256 ^ 32 := lt_trans hr2 secp_n_lt_bytes32
  have hs32 : s < 256 ^ 32 := lt_trans hs2 secp_n_lt_bytes32
  rw [verifyBody.eq_def]
  rw [if_pos ⟨sigSerialize_length r s, sigSerialize_isBytes r s, hmlen, hmbytes⟩]
  rw [sigSerialize_take r s hr32, sigSerialize_drop r s hs32]
  rw [if_pos ⟨hr1, hr2, hs1, hs2⟩, hparse]
  exact hcore

/-- C2: verify-sign consistency at the helper level: a signature produced by
`secp256k1_ecdsa_sign_helper` for a digest and private key verifies, via
`secp256k1_ecdsa_verify_helper`, against that digest and the public key that
`secp256k1_pubkey_create_helper` derives from the same private key, in either
encoding. -/
theorem secp256k1_verify_sign_consistency
    (ctx : Ctx) (msg32 seckey sig pub : List Nat) (compressed : Bool)
    (hcs : ctx.canSign = true) (hcv : ctx.canVerify = true)
    (hsig : secp256k1_ecdsa_sign_helper ctx msg32 seckey = some sig)
    (hpub : secp256k1_pubkey_create_helper ctx seckey compressed = some pub) :
    secp256k1_ecdsa_verify_helper ctx sig msg32 pub = true := by
  rw [secp256k1_ecdsa_sign_helper, if_pos hcs] at hsig
  rw [secp256k1_pubkey_create_helper, if_pos hcs] at hpub
  obtain ⟨⟨hmlen, hmbytes, hkval⟩, r, s, v, hsign, hout⟩ := signBody_some hsig
  obtain ⟨_, hser⟩ := pubkeyCreateBody_some hpub
  obtain ⟨_, _, hk1, hk2⟩ := isValidSeckey_bounds hkval
  obtain ⟨hr1, hr2, hs1, hs2, _⟩ := ecdsaSign_bounds hsign
  obtain ⟨m, ⟨hm1, hm2⟩, hatt⟩ := ecdsaSign_some hsign
  obtain ⟨rx, ry, hsm, hr, hrne, hs0ne, hcase⟩ := ecdsaSignAttempt_some hatt
  obtain ⟨qx, qy, hqeq, hqrep⟩ := smul_key_aff hk1 hk2
  have hqne : (bytesToNatBE seckey) • Gw ≠ 0 := nsmul_G_ne_zero hk1 hk2
  obtain ⟨out, hser', hparse⟩ := serializePoint_parse hqrep hqne compressed
  rw [hqeq] at hser
  rw [hser] at hser'
  have hout_pub : out = pub := by
    simpa using hser'.symm
  subst hout_pub
  rw [← hqeq] at hparse
  have hscast := ecdsaSign_s_cast hm2 hs0ne
    (hcase.imp (fun hc => hc.1) (fun hc => hc.1))
  have hcore := ecdsaVerify_core (bytesToNatBE seckey) (bytesToNatBE msg32) m rx ry r s
    hk1 hk2 hm1 hm2 hsm hr hrne hs1 hs2 hscast
  rw [secp256k1_ecdsa_verify_helper, hcv, Bool.true_and, hout]
  exact verifyBody_of_core hmlen hmbytes hr1 hr2 hs1 hs2 hparse hcore

/-- C1: deterministic signing: the signing helper is a pure function of the
digest and private key alone — any two signing-capable contexts produce the
same successful 64-byte compact signature for the same `(digest, key)` pair,
reflecting the RFC 6979 derivation of the nonce from exactly those inputs. -/
theorem secp256k1_sign_deterministic
    (ctx1 ctx2 : Ctx) (msg32 seckey : List Nat)
    (h1 : ctx1.canSign = true) (h2 : ctx2.canSign = true)
    (hsome : (secp256k1_ecdsa_sign_helper ctx1 msg32 seckey).isSome = true) :
    ∃ sig, secp256k1_ecdsa_sign_helper ctx1 msg32 seckey = some sig ∧
      secp256k1_ecdsa_sign_helper ctx2 msg32 seckey = some sig ∧
      sig.length = 64 := by
  rw [secp256k1_ecdsa_sign_helper, if_pos h1] at hsome
  obtain ⟨sig, hsig⟩ := Option.isSome_iff_exists.mp hsome
  refine ⟨sig, ?_, ?_, ?_⟩
  · rw [secp256k1_ecdsa_sign_helper, if_pos h1]
    exact hsig
  · rw [secp256k1_ecdsa_sign_helper, if_pos h2]
    exact hsig
  · obtain ⟨_, r, s, v, _, hout⟩ := signBody_some hsig
    rw [hout]
    exact sigSerialize_length r s

/-- C4: low-S normalization: the `s` component of every compact signature
produced by the signing helper is at most `n / 2`. -/
theorem secp256k1_sign_low_s
    (ctx : Ctx) (msg32 seckey sig : List Nat)
    (hsig : secp256k1_ecdsa_sign_helper ctx msg32 seckey = some sig) :
    bytesToNatBE (sig.drop 32) ≤ secp_n / 2 := by
  by_cases hcs : ctx.canSign = true
  · rw [secp256k1_ecdsa_sign_helper, if_pos hcs] at hsig
    obtain ⟨_, r, s, v, hsign, hout⟩ := signBody_some hsig
    obtain ⟨_, _, _, hs2, hle⟩ := ecdsaSign_bounds hsign
    rw [hout, sigSerialize_drop r s (lt_trans hs2 secp_n_lt_bytes32)]
    exact hle
  · rw [secp256k1_ecdsa_sign_helper, if_neg hcs] at hsig
    exact absurd hsig (by simp)

/-- C5: verification applies no malleability check: replacing the `s` of a
signature produced by the signing helper with `n - s` yields a high-S
signature (`n - s > n / 2`) that the verification helper still accepts
against the same digest and public key. -/
theorem secp256k1_verify_accepts_high_s
    (ctx : Ctx) (msg32 seckey sig pub : List Nat) (compressed : Bool)
    (hcs : ctx.canSign = true) (hcv : ctx.canVerify = true)
    (hsig : secp256k1_ecdsa_sign_helper ctx msg32 seckey = some sig)
    (hpub : secp256k1_pubkey_create_helper ctx seckey compressed = some pub) :
    secp_n / 2 < secp_n - bytesToNatBE (sig.drop 32) ∧
    secp256k1_ecdsa_verify_helper ctx
      (sigSerialize (bytesToNatBE (sig.take 32))
        (secp_n - bytesToNatBE (sig.drop 32))) msg32 pub = true := by
  rw [secp256k1_ecdsa_sign_helper, if_pos hcs] at hsig
  rw [secp256k1_pubkey_create_helper, if_pos hcs] at hpub
  obtain ⟨⟨hmlen, hmbytes, hkval⟩, r, s, v, hsign, hout⟩ := signBody_some hsig
  obtain ⟨_, hser⟩ := pubkeyCreateBody_some hpub
  obtain ⟨_, _, hk1, hk2⟩ := isValidSeckey_bounds hkval
  obtain ⟨hr1, hr2, hs1, hs2, hsle⟩ := ecdsaSign_bounds hsign
  obtain ⟨m, ⟨hm1, hm2⟩, hatt⟩ := ecdsaSign_some hsign
  obtain ⟨rx, ry, hsm, hr, hrne, hs0ne, hcase⟩ := ecdsaSignAttempt_some hatt
  obtain ⟨qx, qy, hqeq, hqrep⟩ := smul_key_aff hk1 hk2
  have hqne : (bytesToNatBE seckey) • Gw ≠ 0 := nsmul_G_ne_zero hk1 hk2
  obtain ⟨out, hser', hparse⟩ := serializePoint_parse hqrep hqne compressed
  rw [hqeq] at hser
  rw [hser] at hser'
  have hout_pub : out = pub := by simpa using hser'.symm
  subst hout_pub
  rw [← hqeq] at hparse
  have hrtake : bytesToNatBE (sig.take 32) = r := by
    rw [hout, sigSerialize_take r s (lt_trans hr2 secp_n_lt_bytes32)]
  have hsdrop : bytesToNatBE (sig.drop 32) = s := by
    rw [hout, sigSerialize_drop r s (lt_trans hs2 secp_n_lt_bytes32)]
  have hodd := secp_n_odd
  refine ⟨by omega, ?_⟩
  have hscast := ecdsaSign_s_cast hm2 hs0ne
    (hcase.imp (fun hc => hc.1) (fun hc => hc.1))
  have hs'cast : ((secp_n - s : ℕ) : ZMod secp_n) = -(s : ZMod secp_n) := by
    rw [Nat.cast_sub (le_of_lt hs2), ZMod.natCast_self, zero_sub]
  have hscast' : ((secp_n - s : ℕ) : ZMod secp_n) =
      (m : ZMod secp_n)⁻¹ * ((bytesToNatBE msg32 : ZMod secp_n) +
        (r : ZMod secp_n) * (bytesToNatBE seckey : ZMod secp_n)) ∨
    ((secp_n - s : ℕ) : ZMod secp_n) =
      -((m : ZMod secp_n)⁻¹ * ((bytesToNatBE msg32 : ZMod secp_n) +
        (r : ZMod secp_n) * (bytesToNatBE seckey : ZMod secp_n))) := by
    rcases hscast with hA | hA
    · right
      rw [hs'cast, hA]
    · left
      rw [hs'cast, hA, neg_neg]
  have hcore := ecdsaVerify_core (bytesToNatBE seckey) (bytesToNatBE msg32) m rx ry
    r (secp_n - s) hk1 hk2 hm1 hm2 hsm hr hrne (by omega) (by omega) hscast'
  rw [secp256k1_ecdsa_verify_helper, hcv, Bool.true_and, hrtake, hsdrop]
  exact verifyBody_of_core hmlen hmbytes hr1 hr2 (by omega) (by omega) hparse hcore

/-- C6: public-key round-trip: both the compressed (33-byte) and the
uncompressed (65-byte) serializations produced by the derivation helper are
accepted by the parse helper, and both decode to the same internal point. -/
theorem secp256k1_pubkey_roundtrip
    (ctx : Ctx) (seckey pubc pubu : List Nat)
    (hcs : ctx.canSign = true)
    (hc : secp256k1_pubkey_create_helper ctx seckey true = some pubc)
    (hu : secp256k1_pubkey_create_helper ctx seckey false = some pubu) :
    pubc.length = 33 ∧ pubu.length = 65 ∧
    ∃ q : Pt, secp256k1_pubkey_parse_helper ctx pubc = some q ∧
      secp256k1_pubkey_parse_helper ctx pubu = some q := by
  rw [secp256k1_pubkey_create_helper, if_pos hcs] at hc
  rw [secp256k1_pubkey_create_helper, if_pos hcs] at hu
  obtain ⟨hkval, hserc⟩ := pubkeyCreateBody_some hc
  obtain ⟨_, hseru⟩ := pubkeyCreateBody_some hu
  obtain ⟨_, _, hk1, hk2⟩ := isValidSeckey_bounds hkval
  obtain ⟨qx, qy, hqeq, hqrep⟩ := smul_key_aff hk1 hk2
  have hqne : (bytesToNatBE seckey) • Gw ≠ 0 := nsmul_G_ne_zero hk1 hk2
  rw [hqeq] at hserc hseru
  obtain ⟨outc, hserc', hparsec⟩ := serializePoint_parse hqrep hqne true
  obtain ⟨outu, hseru', hparseu⟩ := serializePoint_parse hqrep hqne false
  have houtc : outc = pubc := Option.some.inj (hserc'.symm.trans hserc)
  have houtu : outu = pubu := Option.some.inj (hseru'.symm.trans hseru)
  rw [houtc] at hparsec
  rw [houtu] at hparseu
  have hpcl : pubc = (if qy % 2 = 1 then 3 else 2) :: natToBytesBE 32 qx := by
    have hrfl : serializePoint (Pt.aff qx qy) true =
        some ((if qy % 2 = 1 then 3 else 2) :: natToBytesBE 32 qx) := rfl
    exact (Option.some.inj (hrfl.symm.trans hserc)).symm
  have hpul : pubu = 4 :: (natToBytesBE 32 qx ++ natToBytesBE 32 qy) := by
    have hrfl : serializePoint (Pt.aff qx qy) false =
        some (4 :: (natToBytesBE 32 qx ++ natToBytesBE 32 qy)) := rfl
    exact (Option.some.inj (hrfl.symm.trans hseru)).symm
  have hlenc : pubc.length = 33 := by
    rw [hpcl]
    simp [natToBytesBE_length]
  have hlenu : pubu.length = 65 := by
    rw [hpul]
    simp [natToBytesBE_length]
  exact ⟨hlenc, hlenu, Pt.aff qx qy, hparsec, hparseu⟩

/-- C7: additive tweak semantics: with any 32-byte tweak, the tweak-add
helper succeeds exactly when the private key is valid and `(k + t) mod n` is
nonzero — in no other case does it fail — and on success the stored key is
`(k + t) mod n`. -/
theorem secp256k1_tweak_add_semantics
    (ctx : Ctx) (seckey tweak : List Nat)
    (ht : isValidTweakBytes tweak = true) :
    ((secp256k1_ec_privkey_tweak_add_helper ctx seckey tweak).1 = true ↔
      (isValidSeckey seckey = true ∧
        (bytesToNatBE seckey + bytesToNatBE tweak) % secp_n ≠ 0)) ∧
    ((secp256k1_ec_privkey_tweak_add_helper ctx seckey tweak).1 = true →
      (secp256k1_ec_privkey_tweak_add_helper ctx seckey tweak).2 =
        natToBytesBE 32 ((bytesToNatBE seckey + bytesToNatBE tweak) % secp_n)) := by
  rw [secp256k1_ec_privkey_tweak_add_helper]
  split
  next hcond =>
    rw [Bool.and_eq_true] at hcond
    split
    next hz =>
      refine ⟨⟨fun hc => absurd hc (by simp), fun hc => absurd hz hc.2⟩,
        fun hc => absurd hc (by simp)⟩
    next hz =>
      exact ⟨⟨fun _ => ⟨hcond.1, hz⟩, fun _ => rfl⟩, fun _ => rfl⟩
  next hcond =>
    rw [Bool.and_eq_true] at hcond
    refine ⟨⟨fun hc => absurd hc (by simp), fun hpair => absurd ⟨hpair.1, ht⟩ hcond⟩,
      fun hc => absurd hc (by simp)⟩

/-- C8: failure atomicity of the in-place key transforms: whenever
tweak-add, tweak-multiply or negate reports failure, the private-key buffer
it returns is exactly the input buffer. -/
theorem secp256k1_tweak_failure_atomicity
    (ctx : Ctx) (seckey tweak : List Nat) :
    ((secp256k1_ec_privkey_tweak_add_helper ctx seckey tweak).1 = false →
      (secp256k1_ec_privkey_tweak_add_helper ctx seckey tweak).2 = seckey) ∧
    ((secp256k1_ec_privkey_tweak_mul_helper ctx seckey tweak).1 = false →
      (secp256k1_ec_privkey_tweak_mul_helper ctx seckey tweak).2 = seckey) ∧
    ((secp256k1_ec_privkey_negate_helper ctx seckey).1 = false →
      (secp256k1_ec_privkey_negate_helper ctx seckey).2 = seckey) := by
  refine ⟨?_, ?_, ?_⟩
  · rw [secp256k1_ec_privkey_tweak_add_helper]
    split
    · split
      · intro _
        rfl
      · intro hc
        exact absurd hc (by simp)
    · intro _
      rfl
  · rw [secp256k1_ec_privkey_tweak_mul_helper]
    split
    · intro hc
      exact absurd hc (by simp)
    · intro _
      rfl
  · rw [secp256k1_ec_privkey_negate_helper]
    split
    · intro hc
      exact absurd hc (by simp)
    · intro _
      rfl

/-- C9: negation is total on valid keys and an involution: negating a valid
private key succeeds and stores `(n - k) mod n`, and negating again succeeds
and restores the original key bytes. -/
theorem secp256k1_negate_involution
    (ctx : Ctx) (seckey : List Nat) (hval : isValidSeckey seckey = true) :
    (secp256k1_ec_privkey_negate_helper ctx seckey).1 = true ∧
    (secp256k1_ec_privkey_negate_helper ctx seckey).2 =
      natToBytesBE 32 ((secp_n - bytesToNatBE seckey) % secp_n) ∧
    (secp256k1_ec_privkey_negate_helper ctx
      (secp256k1_ec_privkey_negate_helper ctx seckey).2).1 = true ∧
    (secp256k1_ec_privkey_negate_helper ctx
      (secp256k1_ec_privkey_negate_helper ctx seckey).2).2 = seckey := by
  obtain ⟨hlen, hbytes, hk1, hk2⟩ := isValidSeckey_bounds hval
  have hmod : (secp_n - bytesToNatBE seckey) % secp_n = secp_n - bytesToNatBE seckey :=
    Nat.mod_eq_of_lt (by omega)
  have hrt : bytesToNatBE (natToBytesBE 32 (secp_n - bytesToNatBE seckey)) =
      secp_n - bytesToNatBE seckey :=
    bytesToNatBE_natToBytesBE 32 _ (lt_trans (by omega) secp_n_lt_bytes32)
  have hval2 : isValidSeckey (natToBytesBE 32 ((secp_n - bytesToNatBE seckey) % secp_n))
      = true := by
    rw [hmod]
    simp only [isValidSeckey, Bool.and_eq_true, beq_iff_eq, decide_eq_true_eq]
    exact ⟨⟨⟨natToBytesBE_length 32 _, natToBytesBE_isBytes 32 _⟩, by omega⟩,
      by rw [hrt]; omega⟩
  have hstep1 : secp256k1_ec_privkey_negate_helper ctx seckey =
      (true, natToBytesBE 32 ((secp_n - bytesToNatBE seckey) % secp_n)) := by
    rw [secp256k1_ec_privkey_negate_helper, if_pos hval]
  have hstep2 : secp256k1_ec_privkey_negate_helper ctx
      (natToBytesBE 32 ((secp_n - bytesToNatBE seckey) % secp_n)) =
      (true, natToBytesBE 32 ((secp_n -
        bytesToNatBE (natToBytesBE 32 ((secp_n - bytesToNatBE seckey) % secp_n)))
          % secp_n)) := by
    rw [secp256k1_ec_privkey_negate_helper, if_pos hval2]
  have hback : (secp_n -
      bytesToNatBE (natToBytesBE 32 ((secp_n - bytesToNatBE seckey) % secp_n)))
        % secp_n = bytesToNatBE seckey := by
    rw [hmod, hrt]
    have : secp_n - (secp_n - bytesToNatBE seckey) = bytesToNatBE seckey := by omega
    rw [this]
    exact Nat.mod_eq_of_lt hk2
  refine ⟨by rw [hstep1], by rw [hstep1], ?_, ?_⟩
  · rw [hstep1]
    show (secp256k1_ec_privkey_negate_helper ctx
      (natToBytesBE 32 ((secp_n - bytesToNatBE seckey) % secp_n))).1 = true
    rw [hstep2]
  · rw [hstep1]
    show (secp256k1_ec_privkey_negate_helper ctx
      (natToBytesBE 32 ((secp_n - bytesToNatBE seckey) % secp_n))).2 = seckey
    rw [hstep2]
    show natToBytesBE 32 ((secp_n -
      bytesToNatBE (natToBytesBE 32 ((secp_n - bytesToNatBE seckey) % secp_n)))
        % secp_n) = seckey
    rw [hback]
    rw [show (32 : Nat) = seckey.length from hlen.symm]
    exact natToBytesBE_bytesToNatBE seckey hbytes

/-- C10: the module's only exposed context constructor requests both the
SIGN and the VERIFY capability, so on any context it returns every
capability-guarded operation runs its body — none can fail for lack of
capability. -/
theorem secp256k1_context_sign_verify_caps
    (ctx : Ctx) (h : secp256k1_context_create_sign_verify = some ctx) :
    ctx.canSign = true ∧ ctx.canVerify = true ∧
    (∀ msg32 seckey, secp256k1_ecdsa_sign_helper ctx msg32 seckey =
      signBody msg32 seckey) ∧
    (∀ msg32 seckey, secp256k1_ecdsa_sign_recoverable_helper ctx msg32 seckey =
      signRecoverableBody msg32 seckey) ∧
    (∀ sig64 msg32 pub, secp256k1_ecdsa_verify_helper ctx sig64 msg32 pub =
      verifyBody sig64 msg32 pub) ∧
    (∀ sig64 recid msg32 compressed,
      secp256k1_ecdsa_recover_helper ctx sig64 recid msg32 compressed =
        recoverBody sig64 recid msg32 compressed) ∧
    (∀ seckey compressed, secp256k1_pubkey_create_helper ctx seckey compressed =
      pubkeyCreateBody seckey compressed) := by
  have hctx : ctx = ⟨true, true⟩ := by
    rw [secp256k1_context_create_sign_verify, secp256k1_context_create] at h
    simpa using h.symm
  subst hctx
  refine ⟨rfl, rfl, ?_, ?_, ?_, ?_, ?_⟩
  · intro msg32 seckey
    rw [secp256k1_ecdsa_sign_helper, if_pos rfl]
  · intro msg32 seckey
    rw [secp256k1_ecdsa_sign_recoverable_helper, if_pos rfl]
  · intro sig64 msg32 pub
    rw [secp256k1_ecdsa_verify_helper, Bool.true_and]
  · intro sig64 recid msg32 compressed
    rw [secp256k1_ecdsa_recover_helper, if_pos rfl]
  · intro seckey compressed
    rw [secp256k1_pubkey_create_helper, if_pos rfl]

theorem secp256k1_sign_deterministic_witness :
    ∃ sig, secp256k1_ecdsa_sign_helper ⟨true, true⟩ (natToBytesBE 32 1)
        (natToBytesBE 32 1) = some sig ∧
      secp256k1_ecdsa_sign_helper ⟨true, false⟩ (natToBytesBE 32 1)
        (natToBytesBE 32 1) = some sig ∧
      sig.length = 64 :=
  secp256k1_sign_deterministic ⟨true, true⟩ ⟨true, false⟩ (natToBytesBE 32 1)
    (natToBytesBE 32 1) rfl rfl (by decide)

theorem secp256k1_verify_sign_consistency_witness :
    secp256k1_ecdsa_verify_helper ⟨true, true⟩
      ((secp256k1_ecdsa_sign_helper ⟨true, true⟩ (natToBytesBE 32 1)
        (natToBytesBE 32 1)).getD [])
      (natToBytesBE 32 1)
      ((secp256k1_pubkey_create_helper ⟨true, true⟩ (natToBytesBE 32 1) true).getD [])
      = true :=
  secp256k1_verify_sign_consistency ⟨true, true⟩ (natToBytesBE 32 1) (natToBytesBE 32 1)
    ((secp256k1_ecdsa_sign_helper ⟨true, true⟩ (natToBytesBE 32 1)
      (natToBytesBE 32 1)).getD [])
    ((secp256k1_pubkey_create_helper ⟨true, true⟩ (natToBytesBE 32 1) true).getD [])
    true rfl rfl (by decide) (by decide)

theorem secp256k1_sign_low_s_witness :
    bytesToNatBE (((secp256k1_ecdsa_sign_helper ⟨true, true⟩ (natToBytesBE 32 1)
      (natToBytesBE 32 1)).getD []).drop 32) ≤ secp_n / 2 :=
  secp256k1_sign_low_s ⟨true, true⟩ (natToBytesBE 32 1) (natToBytesBE 32 1)
    ((secp256k1_ecdsa_sign_helper ⟨true, true⟩ (natToBytesBE 32 1)
      (natToBytesBE 32 1)).getD [])
    (by decide)

theorem secp256k1_verify_accepts_high_s_witness :
    secp_n / 2 < secp_n - bytesToNatBE (((secp256k1_ecdsa_sign_helper ⟨true, true⟩
      (natToBytesBE 32 1) (natToBytesBE 32 1)).getD []).drop 32) ∧
    secp256k1_ecdsa_verify_helper ⟨true, true⟩
      (sigSerialize
        (bytesToNatBE (((secp256k1_ecdsa_sign_helper ⟨true, true⟩ (natToBytesBE 32 1)
          (natToBytesBE 32 1)).getD []).take 32))
        (secp_n - bytesToNatBE (((secp256k1_ecdsa_sign_helper ⟨true, true⟩
          (natToBytesBE 32 1) (natToBytesBE 32 1)).getD []).drop 32)))
      (natToBytesBE 32 1)
      ((secp256k1_pubkey_create_helper ⟨true, true⟩ (natToBytesBE 32 1) false).getD [])
      = true :=
  secp256k1_verify_accepts_high_s ⟨true, true⟩ (natToBytesBE 32 1) (natToBytesBE 32 1)
    ((secp256k1_ecdsa_sign_helper ⟨true, true⟩ (natToBytesBE 32 1)
      (natToBytesBE 32 1)).getD [])
    ((secp256k1_pubkey_create_helper ⟨true, true⟩ (natToBytesBE 32 1) false).getD [])
    false rfl rfl (by decide) (by decide)

theorem secp256k1_pubkey_roundtrip_witness :
    ((secp256k1_pubkey_create_helper ⟨true, true⟩ (natToBytesBE 32 1) true).getD
      []).length = 33 ∧
    ((secp256k1_pubkey_create_helper ⟨true, true⟩ (natToBytesBE 32 1) false).getD
      []).length = 65 ∧
    ∃ q : Pt, secp256k1_pubkey_parse_helper ⟨true, true⟩
        ((secp256k1_pubkey_create_helper ⟨true, true⟩ (natToBytesBE 32 1) true).getD [])
        = some q ∧
      secp256k1_pubkey_parse_helper ⟨true, true⟩
        ((secp256k1_pubkey_create_helper ⟨true, true⟩ (natToBytesBE 32 1) false).getD [])
        = some q :=
  secp256k1_pubkey_roundtrip ⟨true, true⟩ (natToBytesBE 32 1)
    ((secp256k1_pubkey_create_helper ⟨true, true⟩ (natToBytesBE 32 1) true).getD [])
    ((secp256k1_pubkey_create_helper ⟨true, true⟩ (natToBytesBE 32 1) false).getD [])
    rfl (by decide) (by decide)

theorem secp256k1_tweak_add_semantics_witness :
    ((secp256k1_ec_privkey_tweak_add_helper ⟨true, true⟩ (natToBytesBE 32 1)
        (natToBytesBE 32 5)).1 = true ↔
      (isValidSeckey (natToBytesBE 32 1) = true ∧
        (bytesToNatBE (natToBytesBE 32 1) + bytesToNatBE (natToBytesBE 32 5))
          % secp_n ≠ 0)) ∧
    ((secp256k1_ec_privkey_tweak_add_helper ⟨true, true⟩ (natToBytesBE 32 1)
        (natToBytesBE 32 5)).1 = true →
      (secp256k1_ec_privkey_tweak_add_helper ⟨true, true⟩ (natToBytesBE 32 1)
        (natToBytesBE 32 5)).2 =
        natToBytesBE 32 ((bytesToNatBE (natToBytesBE 32 1) +
          bytesToNatBE (natToBytesBE 32 5)) % secp_n)) :=
  secp256k1_tweak_add_semantics ⟨true, true⟩ (natToBytesBE 32 1) (natToBytesBE 32 5)
    (by decide)

theorem secp256k1_tweak_failure_atomicity_witness :
    ((secp256k1_ec_privkey_tweak_add_helper ⟨true, true⟩ (natToBytesBE 32 0)
        (natToBytesBE 32 5)).1 = false →
      (secp256k1_ec_privkey_tweak_add_helper ⟨true, true⟩ (natToBytesBE 32 0)
        (natToBytesBE 32 5)).2 = natToBytesBE 32 0) ∧
    ((secp256k1_ec_privkey_tweak_mul_helper ⟨true, true⟩ (natToBytesBE 32 0)
        (natToBytesBE 32 5)).1 = false →
      (secp256k1_ec_privkey_tweak_mul_helper ⟨true, true⟩ (natToBytesBE 32 0)
        (natToBytesBE 32 5)).2 = natToBytesBE 32 0) ∧
    ((secp256k1_ec_privkey_negate_helper ⟨true, true⟩ (natToBytesBE 32 0)).1 = false →
      (secp256k1_ec_privkey_negate_helper ⟨true, true⟩ (natToBytesBE 32 0)).2 =
        natToBytesBE 32 0) :=
  secp256k1_tweak_failure_atomicity ⟨true, true⟩ (natToBytesBE 32 0) (natToBytesBE 32 5)

theorem secp256k1_negate_involution_witness :
    (secp256k1_ec_privkey_negate_helper ⟨true, true⟩ (natToBytesBE 32 1)).1 = true ∧
    (secp256k1_ec_privkey_negate_helper ⟨true, true⟩ (natToBytesBE 32 1)).2 =
      natToBytesBE 32 ((secp_n - bytesToNatBE (natToBytesBE 32 1)) % secp_n) ∧
    (secp256k1_ec_privkey_negate_helper ⟨true, true⟩
      (secp256k1_ec_privkey_negate_helper ⟨true, true⟩ (natToBytesBE 32 1)).2).1
      = true ∧
    (secp256k1_ec_privkey_negate_helper ⟨true, true⟩
      (secp256k1_ec_privkey_negate_helper ⟨true, true⟩ (natToBytesBE 32 1)).2).2 =
      natToBytesBE 32 1 :=
  secp256k1_negate_involution ⟨true, true⟩ (natToBytesBE 32 1) (by decide)

/-- The modular square root of a square is one of the two roots. -/
theorem sqrtP_roots {c b : Nat} (hb : b < secp_p)
    (hcast : (c : ZMod secp_p) = (b : ZMod secp_p) ^ 2) :
    sqrtP c = b ∨ sqrtP c = (secp_p - b) % secp_p := by
  have hsq := sqrtP_cast_sq c (b : ZMod secp_p) hcast
  have hy0lt := sqrtP_lt c
  have hfac : (((sqrtP c : ℕ) : ZMod secp_p) - (b : ZMod secp_p)) *
      (((sqrtP c : ℕ) : ZMod secp_p) + (b : ZMod secp_p)) = 0 := by
    linear_combination hsq
  rcases mul_eq_zero.mp hfac with hc0 | hc0
  · left
    exact cast_inj_lt hy0lt hb (sub_eq_zero.mp hc0)
  · right
    apply cast_inj_lt hy0lt (Nat.mod_lt _ secp_p_pos)
    rw [negMod_cast b (le_of_lt hb)]
    exact eq_neg_of_add_eq_zero_left hc0

/-- Parity selection after a square root: requesting the parity of `b`
returns `b` itself. -/
theorem sqrtP_pick_same {c b w : Nat} (hb : b < secp_p)
    (hcast : (c : ZMod secp_p) = (b : ZMod secp_p) ^ 2)
    (hw : w % 2 = b % 2) :
    (if sqrtP c % 2 = w % 2 then sqrtP c else (secp_p - sqrtP c) % secp_p) = b := by
  have hpodd := secp_p_odd
  by_cases hy0b : sqrtP c = b
  · rw [hy0b, hw, if_pos rfl]
  · have h0 : sqrtP c = (secp_p - b) % secp_p :=
      (sqrtP_roots hb hcast).resolve_left hy0b
    have hbne : b ≠ 0 := by
      intro hb0
      exact hy0b (by rw [h0, hb0, Nat.sub_zero, Nat.mod_self])
    have hy0v : sqrtP c = secp_p - b := by
      rw [h0, Nat.mod_eq_of_lt (by omega)]
    have hpar : ¬(sqrtP c % 2 = w % 2) := by
      rw [hy0v]
      omega
    rw [if_neg hpar, hy0v, show secp_p - (secp_p - b) = b by omega,
      Nat.mod_eq_of_lt hb]

/-- Parity selection after a square root: requesting the opposite parity
returns the negated root `(p - b) mod p`. -/
theorem sqrtP_pick_other {c b w : Nat} (hb : b < secp_p)
    (hcast : (c : ZMod secp_p) = (b : ZMod secp_p) ^ 2)
    (hw : ¬(w % 2 = b % 2)) :
    (if sqrtP c % 2 = w % 2 then sqrtP c else (secp_p - sqrtP c) % secp_p) =
      (secp_p - b) % secp_p := by
  have hpodd := secp_p_odd
  by_cases hy0b : sqrtP c = b
  · rw [hy0b, if_neg (by omega)]
  · have h0 : sqrtP c = (secp_p - b) % secp_p :=
      (sqrtP_roots hb hcast).resolve_left hy0b
    have hbne : b ≠ 0 := by
      intro hb0
      exact hy0b (by rw [h0, hb0, Nat.sub_zero, Nat.mod_self])
    have hy0v : sqrtP c = secp_p - b := by
      rw [h0, Nat.mod_eq_of_lt (by omega)]
    have hpar : sqrtP c % 2 = w % 2 := by
      rw [hy0v]
      omega
    rw [if_pos hpar, h0]

/-- Recovery-id bit facts for both the plain id and its parity-flipped
variant: range, y-parity bit, and overflow bit. -/
theorem recid_facts (ry rx : Nat) :
    ((if ry % 2 = 1 then 1 else 0) + (if secp_n ≤ rx then 2 else 0)) < 4 ∧
    ((if ry % 2 = 1 then 1 else 0) + (if secp_n ≤ rx then 2 else 0)) % 2 = ry % 2 ∧
    (2 ≤ ((if ry % 2 = 1 then 1 else 0) + (if secp_n ≤ rx then 2 else 0)) ↔
      secp_n ≤ rx) ∧
    (((if ry % 2 = 1 then 1 else 0) + (if secp_n ≤ rx then 2 else 0)) ^^^ 1) < 4 ∧
    ¬((((if ry % 2 = 1 then 1 else 0) + (if secp_n ≤ rx then 2 else 0)) ^^^ 1) % 2 =
      ry % 2) ∧
    (2 ≤ (((if ry % 2 = 1 then 1 else 0) + (if secp_n ≤ rx then 2 else 0)) ^^^ 1) ↔
      secp_n ≤ rx) := by
  by_cases h1 : ry % 2 = 1 <;> by_cases h2 : secp_n ≤ rx
  · rw [if_pos h1, if_pos h2]
    refine ⟨by decide, by rw [h1], ⟨fun _ => h2, fun _ => by decide⟩,
      by decide, by rw [h1]; decide, ⟨fun _ => h2, fun _ => by decide⟩⟩
  · rw [if_pos h1, if_neg h2]
    refine ⟨by decide, by rw [h1], ⟨fun hc => absurd hc (by decide), fun hc => absurd hc h2⟩,
      by decide, by rw [h1]; decide,
      ⟨fun hc => absurd hc (by decide), fun hc => absurd hc h2⟩⟩
  · have h1' : ry % 2 = 0 := by omega
    rw [if_neg h1, if_pos h2]
    refine ⟨by decide, by rw [h1'], ⟨fun _ => h2, fun _ => by decide⟩,
      by decide, by rw [h1']; decide, ⟨fun _ => h2, fun _ => by decide⟩⟩
  · have h1' : ry % 2 = 0 := by omega
    rw [if_neg h1, if_neg h2]
    refine ⟨by decide, by rw [h1'], ⟨fun hc => absurd hc (by decide), fun hc => absurd hc h2⟩,
      by decide, by rw [h1']; decide,
      ⟨fun hc => absurd hc (by decide), fun hc => absurd hc h2⟩⟩

/-- Scalar multiples of the generator agree whenever the scalars agree in
the scalar field. -/
theorem nsmul_G_eq_of_cast {a b : Nat} (h : (a : ZMod secp_n) = (b : ZMod secp_n)) :
    a • Gw = b • Gw := by
  have hmod : a % secp_n = b % secp_n := by
    have hv := congrArg ZMod.val h
    rwa [ZMod.val_natCast, ZMod.val_natCast] at hv
  rw [← nsmul_G_mod a, ← nsmul_G_mod b, hmod]

/-- Negation of a generator multiple as a generator multiple. -/
theorem neg_nsmul_G (a : Nat) : -(a • Gw) = (secp_n - a % secp_n) • Gw := by
  rw [neg_eq_iff_add_eq_zero]
  rw [← add_nsmul]
  have hc : ((a + (secp_n - a % secp_n) : ℕ) : ZMod secp_n) = ((0 : ℕ) : ZMod secp_n) := by
    push_cast
    rw [Nat.cast_sub (le_of_lt (Nat.mod_lt _ secp_n_pos)), ZMod.natCast_self,
      ZMod.natCast_mod]
    ring
  rw [nsmul_G_eq_of_cast hc, zero_nsmul]

theorem secp256k1_context_sign_verify_caps_witness :
    Ctx.canSign ⟨true, true⟩ = true ∧ Ctx.canVerify ⟨true, true⟩ = true ∧
    (∀ msg32 seckey, secp256k1_ecdsa_sign_helper ⟨true, true⟩ msg32 seckey =
      signBody msg32 seckey) ∧
    (∀ msg32 seckey, secp256k1_ecdsa_sign_recoverable_helper ⟨true, true⟩ msg32 seckey =
      signRecoverableBody msg32 seckey) ∧
    (∀ sig64 msg32 pub, secp256k1_ecdsa_verify_helper ⟨true, true⟩ sig64 msg32 pub =
      verifyBody sig64 msg32 pub) ∧
    (∀ sig64 recid msg32 compressed,
      secp256k1_ecdsa_recover_helper ⟨true, true⟩ sig64 recid msg32 compressed =
        recoverBody sig64 recid msg32 compressed) ∧
    (∀ seckey compressed, secp256k1_pubkey_create_helper ⟨true, true⟩ seckey compressed =
      pubkeyCreateBody seckey compressed) :=
  secp256k1_context_sign_verify_caps ⟨true, true⟩ rfl

end FuekiSecp
